import Mathlib

/-!
Verification of the color palette generator (`script.js`).

The script's own logic (`generateHarmonyPalette`, the random palette
generator, the picker-state event handlers) is embedded directly from
`src/script.js`.  The color math comes from the external `tinycolor2`
library, imported by the script from a CDN and therefore not part of this
repository; its operations (string parsing, HSL/HSV/RGB conversion,
lighten/darken/desaturate/spin/complement and the harmony combinators)
are modelled here following the library's documented behaviour and the
ColorModel contract of the specification.  JavaScript double-precision
arithmetic is idealised as exact rational arithmetic; rounding to 8-bit
channels happens exactly where the library rounds (hex output).
-/

namespace CPG

/-- Truncation of a rational toward zero, as JavaScript's number-to-int32
conversion does. -/
def ratTrunc (q : ℚ) : ℤ := if q < 0 then -(Int.floor (-q)) else Int.floor q

/-- The JavaScript remainder operator `a % b` on rationals: the remainder
after truncated division, carrying the sign of the dividend. -/
def jsMod (a b : ℚ) : ℚ := a - b * (ratTrunc (a / b) : ℚ)

/-- JavaScript `Math.round`: round half toward positive infinity. -/
def jsRound (q : ℚ) : ℤ := Int.floor (q + 1 / 2)

/-- The library's `clamp01`: force a fraction into `[0, 1]`. -/
def clamp01 (q : ℚ) : ℚ := min 1 (max 0 q)

/-- The library's `bound01`: clamp a value to `[0, mx]` and scale to a
fraction in `[0, 1]` (`360` for hues, `255` for channels).  The library's
floating-point epsilon handling at the top of the range is idealised away,
which agrees with it on every in-range rational input. -/
def bound01 (n mx : ℚ) : ℚ := min mx (max 0 n) / mx

/-- A color as the library stores it: red, green and blue channels on the
`0 .. 255` scale (not yet rounded to integers). -/
structure Rgb where
  r : ℚ
  g : ℚ
  b : ℚ
deriving DecidableEq, Repr

/-- Whitespace characters trimmed from string input (the ASCII part of the
`\s` class used by the library's trim regexes). -/
def isJsWs (c : Char) : Bool :=
  c = ' ' || c = '\t' || c = '\n' || c = '\r' || c = '\x0b' || c = '\x0c'

/-- ASCII lower-casing, as `String.prototype.toLowerCase` acts on the
characters that can appear in color strings. -/
def lowerChar (c : Char) : Char :=
  if 'A' ≤ c ∧ c ≤ 'Z' then Char.ofNat (c.toNat + 32) else c

/-- Value of one lowercase hexadecimal digit, by code point.  The library
lower-cases the whole input string before matching, so `a`-`f` digits
suffice. -/
def hexDigitVal (c : Char) : Option ℕ :=
  if '0'.toNat ≤ c.toNat ∧ c.toNat ≤ '9'.toNat then some (c.toNat - '0'.toNat)
  else if 'a'.toNat ≤ c.toNat ∧ c.toNat ≤ 'f'.toNat then some (c.toNat - 'a'.toNat + 10)
  else none

/-- Lowercase hexadecimal digit characters, in order. -/
def hexDigitChar (n : ℕ) : Char := "0123456789abcdef".data.getD n '0'

/-- Two lowercase hex digits of a byte (the library's `pad2` of
`toString(16)` for values in `0 .. 255`). -/
def byteHex (n : ℕ) : List Char := [hexDigitChar (n / 16 % 16), hexDigitChar (n % 16)]

/-- The library's named-color table, abridged to the standard CSS names
needed here (the claims only exercise the entry for `red`; the full table
maps further names to hex strings in exactly the same way). -/
def tcNames : List (String × String) :=
  [("black", "000"), ("blue", "00f"), ("red", "f00"), ("green", "008000"),
   ("white", "fff"), ("yellow", "ff0"), ("cyan", "0ff"), ("magenta", "f0f"),
   ("gray", "808080"), ("grey", "808080"), ("lime", "0f0"), ("maroon", "800000"),
   ("navy", "000080"), ("olive", "808000"), ("orange", "ffa500"),
   ("purple", "800080"), ("silver", "c0c0c0"), ("teal", "008080"),
   ("aqua", "0ff"), ("fuchsia", "f0f")]

/-- Lookup in the named-color table. -/
def lookupNames (s : String) : Option String :=
  (tcNames.find? (fun p => p.1 == s)).map (fun p => p.2)

/-- The library's hex matchers (`hex8`, `hex6`, `hex4`, `hex3`, each with an
optional leading `#`): 8 digits are RRGGBBAA, 6 are RRGGBB, 4 are RGBA with
doubled digits, 3 are RGB with doubled digits.  Alpha is ignored, as the
script only ever uses the RGB part. -/
def hexMatch (cs : List Char) : Option Rgb :=
  let body := match cs with
    | '#' :: rest => rest
    | _ => cs
  match body.mapM hexDigitVal with
  | some [a, b, c, d, e, f, _, _] =>
      some ⟨((16 * a + b : ℕ) : ℚ), ((16 * c + d : ℕ) : ℚ), ((16 * e + f : ℕ) : ℚ)⟩
  | some [a, b, c, d, e, f] =>
      some ⟨((16 * a + b : ℕ) : ℚ), ((16 * c + d : ℕ) : ℚ), ((16 * e + f : ℕ) : ℚ)⟩
  | some [a, b, c, _] =>
      some ⟨((17 * a : ℕ) : ℚ), ((17 * b : ℕ) : ℚ), ((17 * c : ℕ) : ℚ)⟩
  | some [a, b, c] =>
      some ⟨((17 * a : ℕ) : ℚ), ((17 * b : ℕ) : ℚ), ((17 * c : ℕ) : ℚ)⟩
  | _ => none

/-- Trim and lower-case string input, as `stringInputToObject` does before
matching. -/
def trimLower (s : String) : List Char :=
  (((s.data.dropWhile isJsWs).reverse.dropWhile isJsWs).reverse).map lowerChar

/-- The library's string parser (`tinycolor(string)` restricted to the
formats the application can meet: named colors, `transparent`, and hex
strings; a parse failure is the library's invalid color, `isValid()`
false).  Functional notations such as `rgb(...)` are outside the model. -/
def tcParse (s : String) : Option Rgb :=
  let t := trimLower s
  match lookupNames (String.mk t) with
  | some hx => hexMatch hx.data
  | none =>
    if String.mk t = "transparent" then some ⟨0, 0, 0⟩
    else hexMatch t

/-- The library's `rgbToHsl`: channels scaled to `[0,1]`, returning
`(h, s, l)` with the hue still as a fraction of a turn in `[0, 1]`. -/
def rgbToHsl (c : Rgb) : ℚ × ℚ × ℚ :=
  let r := bound01 c.r 255
  let g := bound01 c.g 255
  let b := bound01 c.b 255
  let mx := max r (max g b)
  let mn := min r (min g b)
  let l := (mx + mn) / 2
  if mx = mn then (0, 0, l)
  else
    let d := mx - mn
    let s := if l > 1 / 2 then d / (2 - mx - mn) else d / (mx + mn)
    let h := if mx = r then (g - b) / d + (if g < b then 6 else 0)
      else if mx = g then (b - r) / d + 2
      else (r - g) / d + 4
    (h / 6, s, l)

/-- The library's `toHsl()`: hue scaled to degrees in `[0, 360)`. -/
def toHsl (c : Rgb) : ℚ × ℚ × ℚ :=
  let x := rgbToHsl c
  (x.1 * 360, x.2.1, x.2.2)

/-- The library's `hue2rgb` helper. -/
def hue2rgb (p q t : ℚ) : ℚ :=
  let t1 := if t < 0 then t + 1 else t
  let t2 := if t1 > 1 then t1 - 1 else t1
  if t2 < 1 / 6 then p + (q - p) * 6 * t2
  else if t2 < 1 / 2 then q
  else if t2 < 2 / 3 then p + (q - p) * (2 / 3 - t2) * 6
  else p

/-- The library's `hslToRgb`: hue in degrees, saturation and lightness as
fractions (the percentage round-trip of object input is the identity on
in-range fractions and a clamp otherwise). -/
def hslToRgb (h s l : ℚ) : Rgb :=
  let hf := bound01 h 360
  let s1 := clamp01 s
  let l1 := clamp01 l
  if s1 = 0 then ⟨l1 * 255, l1 * 255, l1 * 255⟩
  else
    let q := if l1 < 1 / 2 then l1 * (1 + s1) else l1 + s1 - l1 * s1
    let p := 2 * l1 - q
    ⟨hue2rgb p q (hf + 1 / 3) * 255, hue2rgb p q hf * 255, hue2rgb p q (hf - 1 / 3) * 255⟩

/-- Constructing a color from an HSL object, `tinycolor({h, s, l})`. -/
def fromHsl (h s l : ℚ) : Rgb := hslToRgb h s l

/-- The library's `rgbToHsv`, hue as a fraction of a turn. -/
def rgbToHsv (c : Rgb) : ℚ × ℚ × ℚ :=
  let r := bound01 c.r 255
  let g := bound01 c.g 255
  let b := bound01 c.b 255
  let mx := max r (max g b)
  let mn := min r (min g b)
  let v := mx
  let d := mx - mn
  let s := if mx = 0 then 0 else d / mx
  if mx = mn then (0, s, v)
  else
    let h := if mx = r then (g - b) / d + (if g < b then 6 else 0)
      else if mx = g then (b - r) / d + 2
      else (r - g) / d + 4
    (h / 6, s, v)

/-- The library's `toHsv()`: hue scaled to degrees. -/
def toHsv (c : Rgb) : ℚ × ℚ × ℚ :=
  let x := rgbToHsv c
  (x.1 * 360, x.2.1, x.2.2)

/-- The library's `hsvToRgb`. -/
def hsvToRgb (h s v : ℚ) : Rgb :=
  let h6 := bound01 h 360 * 6
  let s1 := clamp01 s
  let v1 := clamp01 v
  let i : ℤ := Int.floor h6
  let f : ℚ := h6 - (i : ℚ)
  let p := v1 * (1 - s1)
  let q := v1 * (1 - f * s1)
  let t := v1 * (1 - (1 - f) * s1)
  let md := (i % 6).toNat
  let r := [v1, q, p, p, t, v1].getD md 0
  let g := [t, v1, v1, q, p, p].getD md 0
  let b := [p, p, t, v1, v1, q].getD md 0
  ⟨r * 255, g * 255, b * 255⟩

/-- Constructing a color from an HSV object, `tinycolor({h, s, v})`. -/
def fromHsv (h s v : ℚ) : Rgb := hsvToRgb h s v

/-- The library's `toHexString()`: each channel rounded and printed as two
lowercase hex digits after a `#`. -/
def toHexString (c : Rgb) : String :=
  String.mk ('#' :: (byteHex (jsRound c.r).toNat ++ byteHex (jsRound c.g).toNat ++
    byteHex (jsRound c.b).toNat))

/-- The library's `lighten(amount)`. -/
def lighten (c : Rgb) (amount : ℚ) : Rgb :=
  let x := toHsl c
  fromHsl x.1 x.2.1 (clamp01 (x.2.2 + amount / 100))

/-- The library's `darken(amount)`. -/
def darken (c : Rgb) (amount : ℚ) : Rgb :=
  let x := toHsl c
  fromHsl x.1 x.2.1 (clamp01 (x.2.2 - amount / 100))

/-- The library's `desaturate(amount)`. -/
def desaturate (c : Rgb) (amount : ℚ) : Rgb :=
  let x := toHsl c
  fromHsl x.1 (clamp01 (x.2.1 - amount / 100)) x.2.2

/-- The library's `spin(amount)`: shift the hue, wrapping with the
JavaScript remainder. -/
def spin (c : Rgb) (amount : ℚ) : Rgb :=
  let x := toHsl c
  let hue := jsMod (x.1 + amount) 360
  fromHsl (if hue < 0 then 360 + hue else hue) x.2.1 x.2.2

/-- The library's `complement()`. -/
def complement (c : Rgb) : Rgb :=
  let x := toHsl c
  fromHsl (jsMod (x.1 + 180) 360) x.2.1 x.2.2

/-- The library's `clone()`.  The script only clones colors parsed from hex
strings, whose channels are integers in `0 .. 255`; on those the library's
string round-trip is the identity, so the model uses the identity. -/
def clone (c : Rgb) : Rgb := c

/-- The library's `polyad` combinator (`triad` for 3, `tetrad` for 4): the
base color followed by evenly spaced hue rotations. -/
def polyad (c : Rgb) (number : ℕ) : List Rgb :=
  let x := toHsl c
  let step : ℚ := 360 / (number : ℚ)
  c :: (List.range (number - 1)).map
    (fun i => fromHsl (jsMod (x.1 + ((i : ℚ) + 1) * step) 360) x.2.1 x.2.2)

/-- The library's `triad()`. -/
def triad (c : Rgb) : List Rgb := polyad c 3

/-- The library's `tetrad()`. -/
def tetrad (c : Rgb) : List Rgb := polyad c 4

/-- The library's `splitcomplement()`: base plus rotations by 72 and 216
degrees. -/
def splitcomplement (c : Rgb) : List Rgb :=
  let x := toHsl c
  [c, fromHsl (jsMod (x.1 + 72) 360) x.2.1 x.2.2,
   fromHsl (jsMod (x.1 + 216) 360) x.2.1 x.2.2]

/-- Successive hues of the library's `analogous` loop: repeatedly add
`part` and wrap. -/
def anaHues (part : ℚ) : ℕ → ℚ → List ℚ
  | 0, _ => []
  | n + 1, hprev =>
    let h1 := jsMod (hprev + part) 360
    h1 :: anaHues part n h1

/-- The library's `analogous(results, slices)`: the base color followed by
`results - 1` colors stepped around the wheel starting half the spread
below the base hue (`>> 1` is integer halving). -/
def analogous (c : Rgb) (results slices : ℕ) : List Rgb :=
  let x := toHsl c
  let part : ℚ := 360 / (slices : ℚ)
  let off : ℤ := Int.floor (part * (results : ℚ)) / 2
  let h0 := jsMod (x.1 - (off : ℚ) + 720) 360
  c :: (anaHues part (results - 1) h0).map (fun hh => fromHsl hh x.2.1 x.2.2)

/-- Successive HSV values of the library's `monochromatic` loop: start at
the base value and repeatedly add `modif`, wrapping with `% 1`. -/
def monoVs (modif : ℚ) : ℕ → ℚ → List ℚ
  | 0, _ => []
  | n + 1, v => v :: monoVs modif n (jsMod (v + modif) 1)

/-- The library's `monochromatic(results)`: same hue and saturation, value
cycling in steps of `1 / results`. -/
def monochromatic (c : Rgb) (results : ℕ) : List Rgb :=
  let x := toHsv c
  (monoVs (1 / (results : ℚ)) results x.2.2).map (fun v => fromHsv x.1 x.2.1 v)

/-! The functions of `script.js` itself. -/

/-- `NUM_COLORS_PER_PALETTE` from `script.js`. -/
def NUM_COLORS_PER_PALETTE : ℕ := 5

/-- The script's recurring pattern `tinycolor(str).op().toHexString()`:
parse a string, transform the color, print it.  An invalid string gives
the library's zero (black) color object, exactly as `tinycolor(bad)`
carries `r = g = b = 0`. -/
def tcmap (s : String) (f : Rgb → Rgb) : String :=
  match tcParse s with
  | some c => toHexString (f c)
  | none => toHexString (f ⟨0, 0, 0⟩)

/-- `generateHarmonyPalette(baseColorValue, harmonyRule)` from `script.js`
(lines 217-298).  Returns `none` where the script returns `null` after
alerting on an invalid base color. -/
def generateHarmonyPalette (baseColorValue harmonyRule : String) : Option (List String) :=
  match tcParse baseColorValue with
  | none => none
  | some base =>
    let N := NUM_COLORS_PER_PALETTE
    let harmonyColors : List String :=
      if harmonyRule = "analogous" then
        let hc := (analogous base (N + 1) 30).map toHexString
        toHexString base :: (hc.drop 1).take (N - 1)
      else if harmonyRule = "monochromatic" then
        (monochromatic base N).map toHexString
      else if harmonyRule = "splitcomplement" then
        match (splitcomplement base).map toHexString with
        | [s0, s1, s2] =>
          ([s0, s1, tcmap s1 (fun x => lighten x 15), s2,
            tcmap s2 (fun x => darken x 15)]).take N
        | l => l.take N
      else if harmonyRule = "triad" then
        let hc := (triad base).map toHexString
        let hc := if hc.length < N ∧ hc.length > 1 then
            hc ++ [tcmap (hc.getD 1 "") (fun x => lighten x 20)] else hc
        let hc := if hc.length < N ∧ hc.length > 2 then
            hc ++ [tcmap (hc.getD 2 "") (fun x => darken x 20)] else hc
        hc.take N
      else if harmonyRule = "tetrad" then
        let hc := (tetrad base).map toHexString
        let hc := if hc.length < N then
            hc ++ [tcmap (hc.getD 0 "") (fun x => lighten x 20)] else hc
        hc.take N
      else if harmonyRule = "complement" then
        let complementColor := toHexString (complement base)
        ([toHexString base, toHexString (lighten (clone base) 20), complementColor,
          tcmap complementColor (fun x => lighten x 20),
          toHexString (desaturate (spin (clone base) 30) 10)]).take N
      else if harmonyRule = "shades" then
        ([toHexString (darken (clone base) 30), toHexString (darken (clone base) 15),
          toHexString base, toHexString (lighten (clone base) 15),
          toHexString (lighten (clone base) 30)]).take N
      else
        [toHexString base]
    some (harmonyColors.map (fun color => tcmap color (fun x => x)))

/-- The hexadecimal characters of `getRandomHexColor` (uppercase, as in the
script). -/
def randomHexChars : List Char := "0123456789ABCDEF".data

/-- `getRandomHexColor()` from `script.js` (lines 179-190): six draws from
the random source, each scaled by 16 and floored to index the character
table.  The random source is modelled as a stream of rationals consumed at
offsets `off .. off + 5`. -/
def getRandomHexColor (rnd : ℕ → ℚ) (off : ℕ) : String :=
  String.mk ('#' :: (List.range 6).map
    (fun i => randomHexChars.getD (Int.floor (rnd (off + i) * 16)).toNat 'X'))

/-- `generatePalette()` from `script.js` (lines 197-206): five random
colors, consuming six random draws each. -/
def generatePalette (rnd : ℕ → ℚ) : List String :=
  (List.range NUM_COLORS_PER_PALETTE).map (fun i => getRandomHexColor rnd (6 * i))

/-- The picker state of `script.js`: `currentHue`, `currentSaturation`,
`currentLightness`. -/
structure PickerState where
  hue : ℚ
  saturation : ℚ
  lightness : ℚ
deriving DecidableEq, Repr

/-- The `baseColorInput` input handler (lines 445-459): on a valid color
adopt its HSL (the subsequent palette regeneration does not touch the
triple); on an invalid color do nothing. -/
def baseColorInputHandler (st : PickerState) (inputValue : String) : PickerState :=
  match tcParse inputValue with
  | some c =>
    let x := toHsl c
    ⟨x.1, x.2.1, x.2.2⟩
  | none => st

/-- The angle-to-hue step of the hue wheel handlers (lines 488-493): the
`atan2`-derived angle in degrees, shifted by a full turn when negative. -/
def wheelAngleToHue (angleDeg : ℚ) : ℚ :=
  if angleDeg < 0 then angleDeg + 360 else angleDeg

/-- The `hueWheelCanvas` mousedown handler (lines 478-496), abstracted over
the angle computed from the pointer position (`atan2` yields a value in
`[-180, 180]`).  Only the hue changes. -/
def hueWheelMousedown (st : PickerState) (angleDeg : ℚ) : PickerState :=
  { st with hue := wheelAngleToHue angleDeg }

/-- The `hueWheelCanvas` mousemove handler (lines 499-518): the same update
gated by the `isDraggingHue` flag. -/
def hueWheelMousemove (isDraggingHue : Bool) (st : PickerState) (angleDeg : ℚ) : PickerState :=
  if isDraggingHue then hueWheelMousedown st angleDeg else st

/-- The `slPickerCanvas` mousedown handler (lines 521-534): saturation and
lightness from the pointer position, clamped to the canvas. -/
def slPickerMousedown (st : PickerState) (x y w h : ℚ) : PickerState :=
  { st with
    saturation := max 0 (min 1 (x / w)),
    lightness := 1 - max 0 (min 1 (y / h)) }

/-- The `slPickerCanvas` mousemove handler (lines 537-551): the same update
gated by the `isDraggingSL` flag. -/
def slPickerMousemove (isDraggingSL : Bool) (st : PickerState) (x y w h : ℚ) : PickerState :=
  if isDraggingSL then slPickerMousedown st x y w h else st

/-- `handleGenerateHarmony()` from `script.js` (lines 412-430): overwrite
the hex field with the hex of the current HSL triple, then derive the
palette from that hex.  Returns the new field contents and the palette. -/
def handleGenerateHarmony (st : PickerState) (harmonyRule : String) :
    String × Option (List String) :=
  let hexv := toHexString (fromHsl st.hue st.saturation st.lightness)
  (hexv, generateHarmonyPalette hexv harmonyRule)

/-- Syntactic validity of a palette entry: the regular expression
`^#[0-9A-Fa-f]{6}$`. -/
def isHexDigitAny (c : Char) : Bool :=
  ('0' ≤ c && c ≤ '9') || ('a' ≤ c && c ≤ 'f') || ('A' ≤ c && c ≤ 'F')

/-- A string matches `^#[0-9A-Fa-f]{6}$`. -/
def matchesHexColorFormat (s : String) : Bool :=
  match s.data with
  | '#' :: rest => rest.length = 6 && rest.all isHexDigitAny
  | _ => false

/-- All channels lie on the `0 .. 255` scale. -/
def chanIn (c : Rgb) : Prop :=
  0 ≤ c.r ∧ c.r ≤ 255 ∧ 0 ≤ c.g ∧ c.g ≤ 255 ∧ 0 ≤ c.b ∧ c.b ≤ 255

/-- A channel value that is an exact byte: a natural number at most 255. -/
def isByte (x : ℚ) : Prop := ∃ n : ℕ, n ≤ 255 ∧ x = (n : ℚ)

/-- All channels are exact bytes. -/
def byteRgb (c : Rgb) : Prop := isByte c.r ∧ isByte c.g ∧ isByte c.b

/-- Channel-wise rounding, as `toHexString` performs. -/
def roundRgb (c : Rgb) : Rgb :=
  ⟨((jsRound c.r).toNat : ℚ), ((jsRound c.g).toNat : ℚ), ((jsRound c.b).toNat : ℚ)⟩

/-- The hue, in degrees rounded to the nearest integer, of a parsed color
string (`Math.round(tinycolor(s).toHsl().h)`). -/
def roundedHueOfHex (s : String) : Option ℤ :=
  (tcParse s).map (fun c => jsRound (toHsl c).1)

/-- The invariant of the picker state: hue in `[0, 360)`, saturation and
lightness in `[0, 1]`. -/
def PickerInv (st : PickerState) : Prop :=
  0 ≤ st.hue ∧ st.hue < 360 ∧ 0 ≤ st.saturation ∧ st.saturation ≤ 1 ∧
    0 ≤ st.lightness ∧ st.lightness ≤ 1

/-- The harmony rules recognized by `generateHarmonyPalette`'s switch. -/
def recognizedRules : List String :=
  ["analogous", "monochromatic", "splitcomplement", "triad", "tetrad",
   "complement", "shades"]

end CPG

namespace CPG

/-! Basic facts about the JavaScript-style numeric helpers. -/

theorem ratTrunc_of_nonneg {q : ℚ} (h : 0 ≤ q) : ratTrunc q = Int.floor q := by
  unfold ratTrunc
  rw [if_neg (not_lt.mpr h)]

theorem jsMod_nonneg {a b : ℚ} (ha : 0 ≤ a) (hb : 0 < b) : 0 ≤ jsMod a b := by
  unfold jsMod
  rw [ratTrunc_of_nonneg (div_nonneg ha hb.le)]
  have h1 : ((Int.floor (a / b) : ℚ)) ≤ a / b := Int.floor_le _
  have h2 : b * (Int.floor (a / b) : ℚ) ≤ b * (a / b) := by
    exact mul_le_mul_of_nonneg_left h1 hb.le
  have h3 : b * (a / b) = a := by
    field_simp
  linarith

theorem jsMod_lt {a b : ℚ} (ha : 0 ≤ a) (hb : 0 < b) : jsMod a b < b := by
  unfold jsMod
  rw [ratTrunc_of_nonneg (div_nonneg ha hb.le)]
  have h1 : a / b < (Int.floor (a / b) : ℚ) + 1 := Int.lt_floor_add_one _
  have h2 : b * (a / b) < b * ((Int.floor (a / b) : ℚ) + 1) := by
    exact mul_lt_mul_of_pos_left h1 hb
  have h3 : b * (a / b) = a := by
    field_simp
  nlinarith

theorem bound01_of_mem {n mx : ℚ} (h0 : 0 ≤ n) (h1 : n ≤ mx) : bound01 n mx = n / mx := by
  unfold bound01
  rw [max_eq_right h0, min_eq_right h1]

theorem bound01_nonneg {n mx : ℚ} (hmx : 0 < mx) : 0 ≤ bound01 n mx := by
  unfold bound01
  exact div_nonneg (le_min hmx.le (le_max_left 0 n)) hmx.le

theorem bound01_le_one {n mx : ℚ} (hmx : 0 < mx) : bound01 n mx ≤ 1 := by
  unfold bound01
  rw [div_le_one hmx]
  exact min_le_left _ _

theorem bound01_scaled {x : ℚ} (h0 : 0 ≤ x) (h1 : x ≤ 1) : bound01 (x * 255) 255 = x := by
  rw [bound01_of_mem (by positivity) (by linarith)]
  field_simp

theorem clamp01_of_mem {q : ℚ} (h0 : 0 ≤ q) (h1 : q ≤ 1) : clamp01 q = q := by
  unfold clamp01
  rw [max_eq_right h0, min_eq_right h1]

theorem clamp01_nonneg (q : ℚ) : 0 ≤ clamp01 q :=
  le_min zero_le_one (le_max_left 0 q)

theorem clamp01_le_one (q : ℚ) : clamp01 q ≤ 1 := min_le_left _ _

theorem clamp01_of_nonpos {q : ℚ} (h : q ≤ 0) : clamp01 q = 0 := by
  unfold clamp01
  rw [max_eq_left h]
  exact min_eq_right zero_le_one

theorem jsRound_intCast (n : ℤ) : jsRound (n : ℚ) = n := by
  unfold jsRound
  rw [Int.floor_eq_iff]
  constructor
  · norm_num
  · norm_num

theorem jsRound_natCast (n : ℕ) : jsRound (n : ℚ) = n := by
  have := jsRound_intCast (n : ℤ)
  simpa using this

theorem jsRound_nonneg {q : ℚ} (h : 0 ≤ q) : 0 ≤ jsRound q := by
  unfold jsRound
  positivity

theorem jsRound_le {q x : ℚ} (h : q ≤ x) (hx : ∃ n : ℤ, x = n) : jsRound q ≤ x := by
  obtain ⟨n, rfl⟩ := hx
  unfold jsRound
  have h1 : (Int.floor (q + 1 / 2) : ℚ) ≤ q + 1 / 2 := Int.floor_le _
  have h2 : Int.floor (q + 1 / 2) < n + 1 := by
    rw [Int.floor_lt]
    push_cast
    linarith
  exact_mod_cast Int.lt_add_one_iff.mp h2

end CPG

namespace CPG

/-! Evaluation of `hue2rgb` on each sixth of the wheel. -/

theorem hue2rgb_up {p q t : ℚ} (h0 : 0 ≤ t) (h1 : t < 1 / 6) :
    hue2rgb p q t = p + (q - p) * 6 * t := by
  unfold hue2rgb
  simp only
  split_ifs <;> first | rfl | linarith

theorem hue2rgb_q {p q t : ℚ} (h0 : 1 / 6 ≤ t) (h1 : t < 1 / 2) :
    hue2rgb p q t = q := by
  unfold hue2rgb
  simp only
  split_ifs <;> first | rfl | linarith

theorem hue2rgb_down {p q t : ℚ} (h0 : 1 / 2 ≤ t) (h1 : t < 2 / 3) :
    hue2rgb p q t = p + (q - p) * (2 / 3 - t) * 6 := by
  unfold hue2rgb
  simp only
  split_ifs <;> first | rfl | linarith

theorem hue2rgb_p {p q t : ℚ} (h0 : 2 / 3 ≤ t) (h1 : t ≤ 1) :
    hue2rgb p q t = p := by
  unfold hue2rgb
  simp only
  split_ifs <;> first | rfl | linarith

theorem hue2rgb_shift_up {p q t : ℚ} (h0 : -1 ≤ t) (h1 : t < 0) :
    hue2rgb p q t = hue2rgb p q (t + 1) := by
  unfold hue2rgb
  simp only
  rw [if_pos h1, if_neg (show ¬((t + 1 : ℚ) < 0) by linarith),
    if_neg (show ¬((t + 1 : ℚ) > 1) by linarith)]

theorem hue2rgb_shift_down {p q t : ℚ} (h0 : 1 < t) (h1 : t ≤ 2) :
    hue2rgb p q t = hue2rgb p q (t - 1) := by
  unfold hue2rgb
  simp only
  rw [if_neg (show ¬((t : ℚ) < 0) by linarith), if_pos (show (t : ℚ) > 1 by linarith),
    if_neg (show ¬((t - 1 : ℚ) < 0) by linarith),
    if_neg (show ¬((t - 1 : ℚ) > 1) by linarith)]

theorem hue2rgb_range {p q t : ℚ} (hp : 0 ≤ p) (hpq : p ≤ q) (hq : q ≤ 1)
    (ht0 : -1 ≤ t) : 0 ≤ hue2rgb p q t ∧ hue2rgb p q t ≤ 1 := by
  unfold hue2rgb
  simp only
  split_ifs <;> constructor <;> nlinarith

end CPG

namespace CPG

/-! Channel ranges of the conversions. -/

theorem getD_unit {l : List ℚ} (hl : ∀ x ∈ l, 0 ≤ x ∧ x ≤ 1) (md : ℕ) :
    0 ≤ l.getD md 0 ∧ l.getD md 0 ≤ 1 := by
  induction l generalizing md with
  | nil => simp [List.getD]
  | cons a t ih =>
    cases md with
    | zero =>
      simpa [List.getD] using hl a (by simp)
    | succ m =>
      simp only [List.getD_cons_succ]
      exact ih (fun x hx => hl x (by simp [hx])) m

set_option maxHeartbeats 1000000 in
theorem hslToRgb_chanIn (h s l : ℚ) : chanIn (hslToRgb h s l) := by
  unfold hslToRgb chanIn
  simp only
  have hS0 := clamp01_nonneg s
  have hS1 := clamp01_le_one s
  have hL0 := clamp01_nonneg l
  have hL1 := clamp01_le_one l
  have hf0 : (0 : ℚ) ≤ bound01 h 360 := bound01_nonneg (by norm_num)
  have hf1 : bound01 h 360 ≤ 1 := bound01_le_one (by norm_num)
  set S := clamp01 s
  set L := clamp01 l
  set F := bound01 h 360
  split_ifs with hs hL
  · refine ⟨?_, ?_, ?_, ?_, ?_, ?_⟩ <;> dsimp only <;> nlinarith
  · have hp0 : (0 : ℚ) ≤ 2 * L - L * (1 + S) := by nlinarith
    have hpq : 2 * L - L * (1 + S) ≤ L * (1 + S) := by nlinarith
    have hq1 : L * (1 + S) ≤ 1 := by nlinarith
    have c1 := hue2rgb_range hp0 hpq hq1 (show (-1 : ℚ) ≤ F + 1 / 3 by linarith)
    have c2 := hue2rgb_range hp0 hpq hq1 (show (-1 : ℚ) ≤ F by linarith)
    have c3 := hue2rgb_range hp0 hpq hq1 (show (-1 : ℚ) ≤ F - 1 / 3 by linarith)
    refine ⟨?_, ?_, ?_, ?_, ?_, ?_⟩ <;> dsimp only <;>
      nlinarith [c1.1, c1.2, c2.1, c2.2, c3.1, c3.2]
  · have hp0 : (0 : ℚ) ≤ 2 * L - (L + S - L * S) := by nlinarith
    have hpq : 2 * L - (L + S - L * S) ≤ L + S - L * S := by nlinarith
    have hq1 : L + S - L * S ≤ 1 := by nlinarith
    have c1 := hue2rgb_range hp0 hpq hq1 (show (-1 : ℚ) ≤ F + 1 / 3 by linarith)
    have c2 := hue2rgb_range hp0 hpq hq1 (show (-1 : ℚ) ≤ F by linarith)
    have c3 := hue2rgb_range hp0 hpq hq1 (show (-1 : ℚ) ≤ F - 1 / 3 by linarith)
    refine ⟨?_, ?_, ?_, ?_, ?_, ?_⟩ <;> dsimp only <;>
      nlinarith [c1.1, c1.2, c2.1, c2.2, c3.1, c3.2]

set_option maxHeartbeats 1000000 in
theorem hsvToRgb_chanIn (h s v : ℚ) : chanIn (hsvToRgb h s v) := by
  unfold hsvToRgb chanIn
  simp only
  have hS0 := clamp01_nonneg s
  have hS1 := clamp01_le_one s
  have hV0 := clamp01_nonneg v
  have hV1 := clamp01_le_one v
  set h6 := bound01 h 360 * 6 with hh6
  have hfr0 : (0 : ℚ) ≤ h6 - (Int.floor h6 : ℚ) := by
    have := Int.floor_le h6
    linarith
  have hfr1 : h6 - (Int.floor h6 : ℚ) ≤ 1 := by
    have := Int.lt_floor_add_one h6
    linarith
  set S := clamp01 s
  set V := clamp01 v
  set f := h6 - (Int.floor h6 : ℚ) with hfdef
  have k1 : (0 : ℚ) ≤ f * S := mul_nonneg hfr0 hS0
  have k2 : f * S ≤ 1 := by nlinarith
  have k3 : (0 : ℚ) ≤ (1 - f) * S := mul_nonneg (by linarith) hS0
  have k4 : (1 - f) * S ≤ 1 := by nlinarith
  have hmem : ∀ x ∈ [V, V * (1 - f * S), V * (1 - S), V * (1 - S), V * (1 - (1 - f) * S), V],
      (0 : ℚ) ≤ x ∧ x ≤ 1 := by
    intro x hx
    simp only [List.mem_cons, List.not_mem_nil, or_false] at hx
    rcases hx with rfl | rfl | rfl | rfl | rfl | rfl <;> constructor <;> nlinarith
  have hmem2 : ∀ x ∈ [V * (1 - (1 - f) * S), V, V, V * (1 - f * S), V * (1 - S), V * (1 - S)],
      (0 : ℚ) ≤ x ∧ x ≤ 1 := by
    intro x hx
    simp only [List.mem_cons, List.not_mem_nil, or_false] at hx
    rcases hx with rfl | rfl | rfl | rfl | rfl | rfl <;> constructor <;> nlinarith
  have hmem3 : ∀ x ∈ [V * (1 - S), V * (1 - S), V * (1 - (1 - f) * S), V, V, V * (1 - f * S)],
      (0 : ℚ) ≤ x ∧ x ≤ 1 := by
    intro x hx
    simp only [List.mem_cons, List.not_mem_nil, or_false] at hx
    rcases hx with rfl | rfl | rfl | rfl | rfl | rfl <;> constructor <;> nlinarith
  have g1 := getD_unit hmem ((Int.floor h6 % 6).toNat)
  have g2 := getD_unit hmem2 ((Int.floor h6 % 6).toNat)
  have g3 := getD_unit hmem3 ((Int.floor h6 % 6).toNat)
  refine ⟨?_, ?_, ?_, ?_, ?_, ?_⟩ <;> dsimp only <;>
    nlinarith [g1.1, g1.2, g2.1, g2.2, g3.1, g3.2]

end CPG

namespace CPG

set_option maxHeartbeats 1000000 in
theorem rgbToHsl_bounds (c : Rgb) :
    0 ≤ (rgbToHsl c).1 ∧ (rgbToHsl c).1 < 1 ∧
    0 ≤ (rgbToHsl c).2.1 ∧ (rgbToHsl c).2.1 ≤ 1 ∧
    0 ≤ (rgbToHsl c).2.2 ∧ (rgbToHsl c).2.2 ≤ 1 ∧
    ((rgbToHsl c).2.1 ≠ 0 → 0 < (rgbToHsl c).2.1 ∧ 0 < (rgbToHsl c).2.2 ∧ (rgbToHsl c).2.2 < 1) ∧
    ((rgbToHsl c).2.1 = 0 → (rgbToHsl c).1 = 0) := by
  unfold rgbToHsl
  simp only
  set R := bound01 c.r 255 with hRdef
  set G := bound01 c.g 255 with hGdef
  set B := bound01 c.b 255 with hBdef
  have hR0 : (0 : ℚ) ≤ R := bound01_nonneg (by norm_num)
  have hR1 : R ≤ 1 := bound01_le_one (by norm_num)
  have hG0 : (0 : ℚ) ≤ G := bound01_nonneg (by norm_num)
  have hG1 : G ≤ 1 := bound01_le_one (by norm_num)
  have hB0 : (0 : ℚ) ≤ B := bound01_nonneg (by norm_num)
  have hB1 : B ≤ 1 := bound01_le_one (by norm_num)
  set MX := max R (max G B) with hMXdef
  set MN := min R (min G B) with hMNdef
  have hMX1 : MX ≤ 1 := max_le hR1 (max_le hG1 hB1)
  have hMN0 : (0 : ℚ) ≤ MN := le_min hR0 (le_min hG0 hB0)
  have hRle : R ≤ MX := le_max_left _ _
  have hGle : G ≤ MX := le_trans (le_max_left _ _) (le_max_right _ _)
  have hBle : B ≤ MX := le_trans (le_max_right _ _) (le_max_right _ _)
  have hRge : MN ≤ R := min_le_left _ _
  have hGge : MN ≤ G := le_trans (min_le_right _ _) (min_le_left _ _)
  have hBge : MN ≤ B := le_trans (min_le_right _ _) (min_le_right _ _)
  have hMNX : MN ≤ MX := le_trans hRge hRle
  have hMX0 : (0 : ℚ) ≤ MX := le_trans hMN0 hMNX
  by_cases hmx : MX = MN
  · rw [if_pos hmx]
    refine ⟨le_refl 0, by norm_num, le_refl 0, zero_le_one, by linarith, by linarith,
      ?_, ?_⟩
    · intro hss
      exact absurd rfl hss
    · intro _
      rfl
  · rw [if_neg hmx]
    have hlt : MN < MX := lt_of_le_of_ne hMNX (Ne.symm hmx)
    have hd : (0 : ℚ) < MX - MN := by linarith
    have hMXpos : (0 : ℚ) < MX := lt_of_le_of_lt hMN0 hlt
    have hs_bounds :
        0 < (if (MX + MN) / 2 > 1 / 2 then (MX - MN) / (2 - MX - MN)
          else (MX - MN) / (MX + MN)) ∧
        (if (MX + MN) / 2 > 1 / 2 then (MX - MN) / (2 - MX - MN)
          else (MX - MN) / (MX + MN)) ≤ 1 := by
      split_ifs with hl
      · have hden : (0 : ℚ) < 2 - MX - MN := by linarith
        exact ⟨div_pos hd hden, by rw [div_le_one hden]; linarith⟩
      · have hden : (0 : ℚ) < MX + MN := by linarith
        exact ⟨div_pos hd hden, by rw [div_le_one hden]; linarith⟩
    have key : ∀ X Y : ℚ, MN ≤ X → X ≤ MX → MN ≤ Y → Y ≤ MX →
        -1 ≤ (X - Y) / (MX - MN) ∧ (X - Y) / (MX - MN) ≤ 1 := by
      intro X Y h1 h2 h3 h4
      constructor
      · rw [le_div_iff₀ hd]
        linarith
      · rw [div_le_one hd]
        linarith
    have hh_bounds :
        0 ≤ (if MX = R then (G - B) / (MX - MN) + (if G < B then 6 else 0)
          else if MX = G then (B - R) / (MX - MN) + 2 else (R - G) / (MX - MN) + 4) ∧
        (if MX = R then (G - B) / (MX - MN) + (if G < B then 6 else 0)
          else if MX = G then (B - R) / (MX - MN) + 2 else (R - G) / (MX - MN) + 4) < 6 := by
      split_ifs with e1 e2 e3
      · have hk := key G B hGge hGle hBge hBle
        have hneg : (G - B) / (MX - MN) < 0 := div_neg_of_neg_of_pos (by linarith) hd
        exact ⟨by linarith [hk.1], by linarith⟩
      · have hk := key G B hGge hGle hBge hBle
        have hnn : (0 : ℚ) ≤ (G - B) / (MX - MN) := div_nonneg (by linarith [not_lt.mp e2]) hd.le
        exact ⟨by linarith, by linarith [hk.2]⟩
      · have hk := key B R hBge hBle hRge hRle
        exact ⟨by linarith [hk.1], by linarith [hk.2]⟩
      · have hk := key R G hRge hRle hGge hGle
        exact ⟨by linarith [hk.1], by linarith [hk.2]⟩
    have hLpos : (0 : ℚ) < (MX + MN) / 2 := by linarith
    have hLle : (MX + MN) / 2 ≤ 1 := by linarith
    have hLlt1 : (MX + MN) / 2 < 1 := by linarith
    refine ⟨?_, ?_, ?_, ?_, ?_, ?_, ?_, ?_⟩ <;> dsimp only
    · linarith [hh_bounds.1]
    · linarith [hh_bounds.2]
    · linarith [hs_bounds.1]
    · exact hs_bounds.2
    · linarith
    · exact hLle
    · intro _
      exact ⟨hs_bounds.1, hLpos, hLlt1⟩
    · intro hss
      exact absurd hss (ne_of_gt hs_bounds.1)

end CPG

namespace CPG

set_option maxHeartbeats 2000000 in
/-- Core round-trip: converting an HSL-constructed channel triple back to
HSL recovers the hue fraction exactly, and the maximum and minimum
channels are `q` and `p`. -/
theorem core_rt (hf p q : ℚ) (hf0 : 0 ≤ hf) (hf1 : hf < 1) (hpq : p < q)
    (hp0 : 0 ≤ p) (hq1 : q ≤ 1) :
    rgbToHsl ⟨hue2rgb p q (hf + 1 / 3) * 255, hue2rgb p q hf * 255,
      hue2rgb p q (hf - 1 / 3) * 255⟩ =
    (hf, if (q + p) / 2 > 1 / 2 then (q - p) / (2 - q - p) else (q - p) / (q + p),
      (q + p) / 2) := by
  have hdne : q - p ≠ 0 := sub_ne_zero.mpr (ne_of_gt hpq)
  unfold rgbToHsl
  simp only
  dsimp only
  rcases lt_or_le hf (1 / 6) with c1 | c1
  · have er : bound01 (hue2rgb p q (hf + 1 / 3) * 255) 255 = q := by
      rw [hue2rgb_q (by linarith) (by linarith)]
      exact bound01_scaled (by linarith) hq1
    have eg : bound01 (hue2rgb p q hf * 255) 255 = p + (q - p) * 6 * hf := by
      rw [hue2rgb_up (by linarith) (by linarith)]
      exact bound01_scaled (by nlinarith) (by nlinarith)
    have eb : bound01 (hue2rgb p q (hf - 1 / 3) * 255) 255 = p := by
      rw [hue2rgb_shift_up (by linarith) (by linarith),
        hue2rgb_p (by linarith) (by linarith)]
      exact bound01_scaled hp0 (by linarith)
    rw [er, eg, eb]
    have hmidA : p ≤ p + (q - p) * 6 * hf := by nlinarith
    have hmidB : p + (q - p) * 6 * hf ≤ q := by nlinarith
    rw [show max q (max (p + (q - p) * 6 * hf) p) = q by
        rw [max_eq_left hmidA, max_eq_left hmidB],
      show min q (min (p + (q - p) * 6 * hf) p) = p by
        rw [min_eq_right hmidA, min_eq_right (le_of_lt hpq)]]
    rw [if_neg (ne_of_gt hpq), if_pos rfl, if_neg (not_lt.mpr hmidA)]
    simp only [Prod.mk.injEq]
    refine ⟨?_, trivial⟩
    field_simp
  · rcases lt_or_le hf (1 / 3) with c2 | c2
    · have er : bound01 (hue2rgb p q (hf + 1 / 3) * 255) 255 =
          p + (q - p) * (2 / 3 - (hf + 1 / 3)) * 6 := by
        rw [hue2rgb_down (by linarith) (by linarith)]
        exact bound01_scaled (by nlinarith) (by nlinarith)
      have eg : bound01 (hue2rgb p q hf * 255) 255 = q := by
        rw [hue2rgb_q (by linarith) (by linarith)]
        exact bound01_scaled (by linarith) hq1
      have eb : bound01 (hue2rgb p q (hf - 1 / 3) * 255) 255 = p := by
        rw [hue2rgb_shift_up (by linarith) (by linarith),
          hue2rgb_p (by linarith) (by linarith)]
        exact bound01_scaled hp0 (by linarith)
      rw [er, eg, eb]
      have hmidA : p ≤ p + (q - p) * (2 / 3 - (hf + 1 / 3)) * 6 := by nlinarith
      have hmidB : p + (q - p) * (2 / 3 - (hf + 1 / 3)) * 6 ≤ q := by nlinarith
      rw [show max (p + (q - p) * (2 / 3 - (hf + 1 / 3)) * 6) (max q p) = q by
          rw [max_eq_left (le_of_lt hpq), max_eq_right hmidB],
        show min (p + (q - p) * (2 / 3 - (hf + 1 / 3)) * 6) (min q p) = p by
          rw [min_eq_right (le_of_lt hpq), min_eq_right hmidA]]
      rw [if_neg (ne_of_gt hpq)]
      by_cases hEq : hf = 1 / 6
      · subst hEq
        rw [if_pos (by ring :
            q = p + (q - p) * (2 / 3 - (1 / 6 + 1 / 3)) * 6)]
        rw [if_neg (not_lt.mpr (le_of_lt hpq))]
        simp only [Prod.mk.injEq]
        refine ⟨?_, trivial⟩
        rw [div_self hdne]
        norm_num
      · have hgt : 1 / 6 < hf := lt_of_le_of_ne c1 (Ne.symm hEq)
        have hmidlt : p + (q - p) * (2 / 3 - (hf + 1 / 3)) * 6 < q := by nlinarith
        rw [if_neg (ne_of_gt hmidlt), if_pos rfl]
        simp only [Prod.mk.injEq]
        refine ⟨?_, trivial⟩
        field_simp
        all_goals ring
    · rcases lt_or_le hf (1 / 2) with c3 | c3
      · have er : bound01 (hue2rgb p q (hf + 1 / 3) * 255) 255 = p := by
          rw [hue2rgb_p (by linarith) (by linarith)]
          exact bound01_scaled hp0 (by linarith)
        have eg : bound01 (hue2rgb p q hf * 255) 255 = q := by
          rw [hue2rgb_q (by linarith) (by linarith)]
          exact bound01_scaled (by linarith) hq1
        have eb : bound01 (hue2rgb p q (hf - 1 / 3) * 255) 255 =
            p + (q - p) * 6 * (hf - 1 / 3) := by
          rw [hue2rgb_up (by linarith) (by linarith)]
          exact bound01_scaled (by nlinarith) (by nlinarith)
        rw [er, eg, eb]
        have hmidA : p ≤ p + (q - p) * 6 * (hf - 1 / 3) := by nlinarith
        have hmidB : p + (q - p) * 6 * (hf - 1 / 3) ≤ q := by nlinarith
        rw [show max p (max q (p + (q - p) * 6 * (hf - 1 / 3))) = q by
            rw [max_eq_left hmidB, max_eq_right (le_of_lt hpq)],
          show min p (min q (p + (q - p) * 6 * (hf - 1 / 3))) = p by
            rw [min_eq_right hmidB, min_eq_left hmidA]]
        rw [if_neg (ne_of_gt hpq), if_neg (ne_of_gt hpq), if_pos rfl]
        simp only [Prod.mk.injEq]
        refine ⟨?_, trivial⟩
        field_simp
        all_goals ring
      · rcases lt_or_le hf (2 / 3) with c4 | c4
        · have er : bound01 (hue2rgb p q (hf + 1 / 3) * 255) 255 = p := by
            rw [hue2rgb_p (by linarith) (by linarith)]
            exact bound01_scaled hp0 (by linarith)
          have eg : bound01 (hue2rgb p q hf * 255) 255 =
              p + (q - p) * (2 / 3 - hf) * 6 := by
            rw [hue2rgb_down (by linarith) (by linarith)]
            exact bound01_scaled (by nlinarith) (by nlinarith)
          have eb : bound01 (hue2rgb p q (hf - 1 / 3) * 255) 255 = q := by
            rw [hue2rgb_q (by linarith) (by linarith)]
            exact bound01_scaled (by linarith) hq1
          rw [er, eg, eb]
          have hmidA : p ≤ p + (q - p) * (2 / 3 - hf) * 6 := by nlinarith
          have hmidB : p + (q - p) * (2 / 3 - hf) * 6 ≤ q := by nlinarith
          rw [show max p (max (p + (q - p) * (2 / 3 - hf) * 6) q) = q by
              rw [max_eq_right hmidB, max_eq_right (le_of_lt hpq)],
            show min p (min (p + (q - p) * (2 / 3 - hf) * 6) q) = p by
              rw [min_eq_left hmidB, min_eq_left hmidA]]
          rw [if_neg (ne_of_gt hpq), if_neg (ne_of_gt hpq)]
          by_cases hEq : hf = 1 / 2
          · subst hEq
            rw [if_pos (by ring :
                q = p + (q - p) * (2 / 3 - 1 / 2) * 6)]
            simp only [Prod.mk.injEq]
            refine ⟨?_, trivial⟩
            rw [div_self hdne]
            norm_num
          · have hgt : 1 / 2 < hf := lt_of_le_of_ne c3 (Ne.symm hEq)
            have hmidlt : p + (q - p) * (2 / 3 - hf) * 6 < q := by nlinarith
            rw [if_neg (ne_of_gt hmidlt)]
            simp only [Prod.mk.injEq]
            refine ⟨?_, trivial⟩
            field_simp
            all_goals ring
        · rcases lt_or_le hf (5 / 6) with c5 | c5
          · have er0 : hue2rgb p q (hf + 1 / 3) =
                p + (q - p) * 6 * (hf + 1 / 3 - 1) := by
              by_cases hE : hf = 2 / 3
              · subst hE
                rw [hue2rgb_p (by norm_num) (by norm_num)]
                ring
              · have hgt : 2 / 3 < hf := lt_of_le_of_ne c4 (Ne.symm hE)
                rw [hue2rgb_shift_down (by linarith) (by linarith),
                  hue2rgb_up (by linarith) (by linarith)]
            have er : bound01 (hue2rgb p q (hf + 1 / 3) * 255) 255 =
                p + (q - p) * 6 * (hf + 1 / 3 - 1) := by
              rw [er0]
              exact bound01_scaled (by nlinarith) (by nlinarith)
            have eg : bound01 (hue2rgb p q hf * 255) 255 = p := by
              rw [hue2rgb_p (by linarith) (by linarith)]
              exact bound01_scaled hp0 (by linarith)
            have eb : bound01 (hue2rgb p q (hf - 1 / 3) * 255) 255 = q := by
              rw [hue2rgb_q (by linarith) (by linarith)]
              exact bound01_scaled (by linarith) hq1
            rw [er, eg, eb]
            have hmidA : p ≤ p + (q - p) * 6 * (hf + 1 / 3 - 1) := by nlinarith
            have hmidB : p + (q - p) * 6 * (hf + 1 / 3 - 1) ≤ q := by nlinarith
            have hmidlt : p + (q - p) * 6 * (hf + 1 / 3 - 1) < q := by nlinarith
            rw [show max (p + (q - p) * 6 * (hf + 1 / 3 - 1)) (max p q) = q by
                rw [max_eq_right (le_of_lt hpq), max_eq_right hmidB],
              show min (p + (q - p) * 6 * (hf + 1 / 3 - 1)) (min p q) = p by
                rw [min_eq_left (le_of_lt hpq), min_eq_right hmidA]]
            rw [if_neg (ne_of_gt hpq), if_neg (ne_of_gt hmidlt), if_neg (ne_of_gt hpq)]
            simp only [Prod.mk.injEq]
            refine ⟨?_, trivial⟩
            field_simp
            all_goals ring
          · have er : bound01 (hue2rgb p q (hf + 1 / 3) * 255) 255 = q := by
              rw [hue2rgb_shift_down (by linarith) (by linarith),
                hue2rgb_q (by linarith) (by linarith)]
              exact bound01_scaled (by linarith) hq1
            have eg : bound01 (hue2rgb p q hf * 255) 255 = p := by
              rw [hue2rgb_p (by linarith) (by linarith)]
              exact bound01_scaled hp0 (by linarith)
            have eb : bound01 (hue2rgb p q (hf - 1 / 3) * 255) 255 =
                p + (q - p) * (2 / 3 - (hf - 1 / 3)) * 6 := by
              rw [hue2rgb_down (by linarith) (by linarith)]
              exact bound01_scaled (by nlinarith) (by nlinarith)
            rw [er, eg, eb]
            have hmidA : p ≤ p + (q - p) * (2 / 3 - (hf - 1 / 3)) * 6 := by nlinarith
            have hmidgt : p < p + (q - p) * (2 / 3 - (hf - 1 / 3)) * 6 := by nlinarith
            have hmidB : p + (q - p) * (2 / 3 - (hf - 1 / 3)) * 6 ≤ q := by nlinarith
            rw [show max q (max p (p + (q - p) * (2 / 3 - (hf - 1 / 3)) * 6)) = q by
                rw [max_eq_right hmidA, max_eq_left hmidB],
              show min q (min p (p + (q - p) * (2 / 3 - (hf - 1 / 3)) * 6)) = p by
                rw [min_eq_left hmidA, min_eq_right (le_of_lt hpq)]]
            rw [if_neg (ne_of_gt hpq), if_pos rfl, if_pos hmidgt]
            simp only [Prod.mk.injEq]
            refine ⟨?_, trivial⟩
            field_simp
            all_goals ring

end CPG

namespace CPG

theorem clamp01_idem (q : ℚ) : clamp01 (clamp01 q) = clamp01 q :=
  clamp01_of_mem (clamp01_nonneg q) (clamp01_le_one q)

theorem jsMod_small {a b : ℚ} (h0 : 0 ≤ a) (hab : a < b) : jsMod a b = a := by
  have hb : (0 : ℚ) < b := lt_of_le_of_lt h0 hab
  unfold jsMod
  rw [ratTrunc_of_nonneg (div_nonneg h0 hb.le)]
  have : Int.floor (a / b) = 0 := by
    rw [Int.floor_eq_zero_iff]
    constructor
    · exact div_nonneg h0 hb.le
    · rw [div_lt_one hb]
      exact hab
  rw [this]
  push_cast
  ring

theorem hslToRgb_s0 (h l : ℚ) :
    hslToRgb h 0 l = ⟨clamp01 l * 255, clamp01 l * 255, clamp01 l * 255⟩ := by
  unfold hslToRgb
  simp only
  rw [if_pos (clamp01_of_mem le_rfl zero_le_one)]

theorem rgbToHsl_gray (x : ℚ) : rgbToHsl ⟨x, x, x⟩ = (0, 0, bound01 x 255) := by
  unfold rgbToHsl
  simp only
  dsimp only
  rw [max_self, max_self, min_self, min_self, if_pos rfl]
  simp only [Prod.mk.injEq, true_and]
  ring

theorem spin_eq (c : Rgb) (amt : ℚ) (hamt : 0 ≤ amt) :
    spin c amt =
      hslToRgb (jsMod ((rgbToHsl c).1 * 360 + amt) 360) (rgbToHsl c).2.1 (rgbToHsl c).2.2 := by
  have h0 := (rgbToHsl_bounds c).1
  unfold spin toHsl fromHsl
  simp only
  rw [if_neg (not_lt.mpr (jsMod_nonneg (by nlinarith) (by norm_num)))]

theorem desaturate_eq (c : Rgb) (amt : ℚ) :
    desaturate c amt =
      hslToRgb ((rgbToHsl c).1 * 360) (clamp01 ((rgbToHsl c).2.1 - amt / 100))
        (rgbToHsl c).2.2 := rfl

theorem lighten_eq (c : Rgb) (amt : ℚ) :
    lighten c amt =
      hslToRgb ((rgbToHsl c).1 * 360) (rgbToHsl c).2.1
        (clamp01 ((rgbToHsl c).2.2 + amt / 100)) := rfl

theorem darken_eq (c : Rgb) (amt : ℚ) :
    darken c amt =
      hslToRgb ((rgbToHsl c).1 * 360) (rgbToHsl c).2.1
        (clamp01 ((rgbToHsl c).2.2 - amt / 100)) := rfl

theorem complement_eq (c : Rgb) :
    complement c =
      hslToRgb (jsMod ((rgbToHsl c).1 * 360 + 180) 360) (rgbToHsl c).2.1
        (rgbToHsl c).2.2 := rfl

set_option maxHeartbeats 1000000 in
/-- Full round-trip: `toHsl` after constructing a color from in-range,
non-achromatic HSL recovers it exactly. -/
theorem hsl_roundtrip (h s l : ℚ) (hh0 : 0 ≤ h) (hh1 : h < 360)
    (hs0 : 0 < s) (hs1 : s ≤ 1) (hl0 : 0 < l) (hl1 : l < 1) :
    rgbToHsl (hslToRgb h s l) = (h / 360, s, l) := by
  unfold hslToRgb
  simp only
  rw [bound01_of_mem hh0 (le_of_lt hh1), clamp01_of_mem (le_of_lt hs0) hs1,
    clamp01_of_mem (le_of_lt hl0) (le_of_lt hl1)]
  rw [if_neg hs0.ne']
  have hfa : (0 : ℚ) ≤ h / 360 := by positivity
  have hfb : h / 360 < 1 := by
    rw [div_lt_one (by norm_num)]
    exact hh1
  by_cases hl2 : l < 1 / 2
  · rw [if_pos hl2]
    rw [core_rt (h / 360) (2 * l - l * (1 + s)) (l * (1 + s)) hfa hfb
      (by nlinarith) (by nlinarith) (by nlinarith)]
    rw [show (l * (1 + s) + (2 * l - l * (1 + s))) / 2 = l by ring]
    rw [if_neg (not_lt.mpr (le_of_lt hl2))]
    simp only [Prod.mk.injEq, true_and, and_true]
    have hden : l * (1 + s) + (2 * l - l * (1 + s)) ≠ 0 := by
      intro hh
      linarith
    rw [div_eq_iff hden]
    ring
  · rw [if_neg hl2]
    have hothers : (0 : ℚ) ≤ (1 - s) * (1 - l) := by nlinarith
    rw [core_rt (h / 360) (2 * l - (l + s - l * s)) (l + s - l * s) hfa hfb
      (by nlinarith) (by nlinarith [not_lt.mp hl2]) (by nlinarith)]
    rw [show (l + s - l * s + (2 * l - (l + s - l * s))) / 2 = l by ring]
    by_cases hgt : (1 : ℚ) / 2 < l
    · rw [if_pos hgt]
      simp only [Prod.mk.injEq, true_and, and_true]
      have hden : (2 : ℚ) - (l + s - l * s) - (2 * l - (l + s - l * s)) ≠ 0 := by
        intro hh
        linarith
      rw [div_eq_iff hden]
      ring
    · have hleq : l = 1 / 2 := le_antisymm (not_lt.mp hgt) (not_lt.mp hl2)
      rw [if_neg hgt]
      simp only [Prod.mk.injEq, true_and, and_true]
      have hden : l + s - l * s + (2 * l - (l + s - l * s)) ≠ 0 := by
        intro hh
        linarith
      rw [div_eq_iff hden, hleq]
      ring

end CPG

namespace CPG

set_option maxHeartbeats 1000000 in
/-- The fifth element of the complement rule: spinning by 30 degrees and
desaturating by 10 percent commute, because they touch independent HSL
coordinates and hue collapses only on achromatic colors, where the result
is the same gray either way. -/
theorem spin_desaturate_comm (c : Rgb) :
    desaturate (spin c 30) 10 = spin (desaturate c 10) 30 := by
  obtain ⟨bh0, bh1, bs0, bs1, bl0, bl1, bpos, bgray⟩ := rgbToHsl_bounds c
  by_cases hS : (rgbToHsl c).2.1 = 0
  · -- achromatic base: both orders produce the same gray
    rw [spin_eq c 30 (by norm_num), desaturate_eq c 10, hS, bgray hS]
    rw [show (0 : ℚ) * 360 + 30 = 30 by ring, show (0 : ℚ) * 360 = 0 by ring]
    rw [jsMod_small (by norm_num) (by norm_num)]
    rw [show clamp01 ((0 : ℚ) - 10 / 100) = 0 from clamp01_of_nonpos (by norm_num)]
    rw [hslToRgb_s0, hslToRgb_s0]
    rw [desaturate_eq _ 10, spin_eq _ 30 (by norm_num)]
    rw [rgbToHsl_gray]
    dsimp only
    rw [show (0 : ℚ) * 360 + 30 = 30 by ring, show (0 : ℚ) * 360 = 0 by ring]
    rw [jsMod_small (by norm_num) (by norm_num)]
    rw [show clamp01 ((0 : ℚ) - 10 / 100) = 0 from clamp01_of_nonpos (by norm_num)]
    rw [hslToRgb_s0, hslToRgb_s0]
  · obtain ⟨hSpos, hLpos, hLlt⟩ := bpos hS
    have hh360a : (0 : ℚ) ≤ (rgbToHsl c).1 * 360 := by nlinarith
    have hh360b : (rgbToHsl c).1 * 360 < 360 := by nlinarith
    have hm0 : (0 : ℚ) ≤ jsMod ((rgbToHsl c).1 * 360 + 30) 360 :=
      jsMod_nonneg (by linarith) (by norm_num)
    have hm1 : jsMod ((rgbToHsl c).1 * 360 + 30) 360 < 360 :=
      jsMod_lt (by linarith) (by norm_num)
    rw [spin_eq c 30 (by norm_num), desaturate_eq c 10]
    rw [desaturate_eq _ 10]
    rw [hsl_roundtrip _ _ _ hm0 hm1 hSpos bs1 hLpos hLlt]
    dsimp only
    rw [div_mul_cancel₀ _ (show (360 : ℚ) ≠ 0 by norm_num)]
    by_cases hBig : 10 / 100 < (rgbToHsl c).2.1
    · have e2 : clamp01 ((rgbToHsl c).2.1 - 10 / 100) = (rgbToHsl c).2.1 - 10 / 100 :=
        clamp01_of_mem (by linarith) (by linarith)
      rw [e2]
      rw [spin_eq _ 30 (by norm_num)]
      rw [hsl_roundtrip _ _ _ hh360a hh360b (by linarith) (by linarith) hLpos hLlt]
      dsimp only
      rw [div_mul_cancel₀ _ (show (360 : ℚ) ≠ 0 by norm_num)]
    · have e2 : clamp01 ((rgbToHsl c).2.1 - 10 / 100) = 0 :=
        clamp01_of_nonpos (by linarith [not_lt.mp hBig])
      rw [e2]
      rw [hslToRgb_s0, hslToRgb_s0]
      rw [spin_eq _ 30 (by norm_num), rgbToHsl_gray]
      dsimp only
      rw [bound01_scaled (clamp01_nonneg _) (clamp01_le_one _)]
      rw [show (0 : ℚ) * 360 + 30 = 30 by ring]
      rw [jsMod_small (by norm_num) (by norm_num)]
      rw [hslToRgb_s0, clamp01_idem]

end CPG

namespace CPG

/-! The hex print-parse round trip. -/

theorem hexDigitVal_lt {ch : Char} {d : ℕ} (h : hexDigitVal ch = some d) : d < 16 := by
  unfold hexDigitVal at h
  have e0 : '0'.toNat = 48 := rfl
  have e9 : '9'.toNat = 57 := rfl
  have ea : 'a'.toNat = 97 := rfl
  have ef : 'f'.toNat = 102 := rfl
  split_ifs at h with h1 h2
  · injection h with h'
    omega
  · injection h with h'
    omega

theorem hexDigitChar_val {d : ℕ} (hd : d < 16) : hexDigitVal (hexDigitChar d) = some d := by
  interval_cases d <;> decide

theorem hexDigitChar_not_ws {d : ℕ} (hd : d < 16) : isJsWs (hexDigitChar d) = false := by
  interval_cases d <;> decide

theorem hexDigitChar_lower {d : ℕ} (hd : d < 16) : lowerChar (hexDigitChar d) = hexDigitChar d := by
  interval_cases d <;> decide

theorem mapM_hexDigitVal_lt :
    ∀ (l : List Char) (ds : List ℕ), l.mapM hexDigitVal = some ds → ∀ d ∈ ds, d < 16 := by
  intro l
  induction l with
  | nil =>
    intro ds h d hd
    simp only [List.mapM_nil, Option.pure_def, Option.some.injEq] at h
    subst h
    simp at hd
  | cons a t ih =>
    intro ds h d hd
    rw [List.mapM_cons] at h
    rcases e1 : hexDigitVal a with _ | v
    · rw [e1] at h
      simp at h
    · rw [e1] at h
      rcases e2 : t.mapM hexDigitVal with _ | vs
      · rw [e2] at h
        simp at h
      · rw [e2] at h
        simp only [Option.pure_def, Option.bind_some, Option.bind_eq_bind,
          Option.some_bind, Option.some.injEq] at h
        subst h
        rcases List.mem_cons.mp hd with rfl | hmem
        · exact hexDigitVal_lt e1
        · exact ih vs e2 d hmem

theorem dropWhile_ws_eq {l : List Char} (h : ∀ c ∈ l, isJsWs c = false) :
    l.dropWhile isJsWs = l := by
  induction l with
  | nil => rfl
  | cons a t ih =>
    rw [List.dropWhile_cons, if_neg (by simp [h a (by simp)])]

theorem trimLower_no_ws {l : List Char} (hws : ∀ c ∈ l, isJsWs c = false)
    (hlo : ∀ c ∈ l, lowerChar c = c) : trimLower (String.mk l) = l := by
  unfold trimLower
  have hdata : (String.mk l).data = l := rfl
  rw [hdata, dropWhile_ws_eq hws,
    dropWhile_ws_eq (fun c hc => hws c (List.mem_reverse.mp hc)),
    List.reverse_reverse]
  have : l.map lowerChar = l.map id := List.map_congr_left (by simpa using hlo)
  rw [this, List.map_id]

theorem lookupNames_hash (rest : List Char) :
    lookupNames (String.mk ('#' :: rest)) = none := by
  unfold lookupNames
  have hfind : tcNames.find? (fun p => p.1 == String.mk ('#' :: rest)) = none := by
    rw [List.find?_eq_none]
    intro p hp hbeq
    have heq : p.1 = String.mk ('#' :: rest) := eq_of_beq hbeq
    have hhead : p.1.data.head? = some '#' := by
      rw [heq]
      rfl
    have hall : ∀ pp ∈ tcNames, pp.1.data.head? ≠ some '#' := by decide
    exact (hall p hp) hhead
  rw [hfind]
  rfl

theorem mk_hash_ne_transparent (rest : List Char) :
    String.mk ('#' :: rest) ≠ "transparent" := by
  intro h
  have h1 : ('#' :: rest).head? = ("transparent".data).head? := by
    rw [show ('#' :: rest) = "transparent".data from congrArg String.data h]
  simp only [List.head?] at h1
  have : '#' = 't' := by
    injection h1
  exact absurd this (by decide)

end CPG

namespace CPG

theorem byteHex_digits_lt (n : ℕ) : n / 16 % 16 < 16 ∧ n % 16 < 16 :=
  ⟨Nat.mod_lt _ (by norm_num), Nat.mod_lt _ (by norm_num)⟩

theorem tcParse_hex_of_bytes (r g b : ℕ) (hr : r ≤ 255) (hg : g ≤ 255) (hb : b ≤ 255) :
    tcParse (String.mk ('#' :: (byteHex r ++ byteHex g ++ byteHex b))) =
      some ⟨(r : ℚ), (g : ℚ), (b : ℚ)⟩ := by
  have hmem : ∀ c ∈ '#' :: (byteHex r ++ byteHex g ++ byteHex b),
      isJsWs c = false ∧ lowerChar c = c := by
    intro c hc
    simp only [byteHex, List.mem_cons, List.mem_append, List.not_mem_nil, or_false] at hc
    rcases hc with rfl | hc
    · exact ⟨by decide, by decide⟩
    · have hd : ∃ d, d < 16 ∧ c = hexDigitChar d := by
        rcases hc with ((h | h) | (h | h)) | (h | h) <;>
          exact ⟨_, Nat.mod_lt _ (by norm_num), h⟩
      obtain ⟨d, hd, rfl⟩ := hd
      exact ⟨hexDigitChar_not_ws hd, hexDigitChar_lower hd⟩
  unfold tcParse
  simp only
  rw [trimLower_no_ws (fun c hc => (hmem c hc).1) (fun c hc => (hmem c hc).2)]
  rw [lookupNames_hash]
  rw [if_neg (mk_hash_ne_transparent _)]
  unfold hexMatch
  simp only [byteHex, List.cons_append, List.nil_append]
  have e1 := hexDigitChar_val (d := r / 16 % 16) (Nat.mod_lt _ (by norm_num))
  have e2 := hexDigitChar_val (d := r % 16) (Nat.mod_lt _ (by norm_num))
  have e3 := hexDigitChar_val (d := g / 16 % 16) (Nat.mod_lt _ (by norm_num))
  have e4 := hexDigitChar_val (d := g % 16) (Nat.mod_lt _ (by norm_num))
  have e5 := hexDigitChar_val (d := b / 16 % 16) (Nat.mod_lt _ (by norm_num))
  have e6 := hexDigitChar_val (d := b % 16) (Nat.mod_lt _ (by norm_num))
  simp only [List.mapM_cons, List.mapM_nil, e1, e2, e3, e4, e5, e6, Option.pure_def,
    Option.bind_eq_bind, Option.some_bind]
  have hrv : 16 * (r / 16 % 16) + r % 16 = r := by
    have : r / 16 < 16 := by omega
    rw [Nat.mod_eq_of_lt this]
    omega
  have hgv : 16 * (g / 16 % 16) + g % 16 = g := by
    have : g / 16 < 16 := by omega
    rw [Nat.mod_eq_of_lt this]
    omega
  have hbv : 16 * (b / 16 % 16) + b % 16 = b := by
    have : b / 16 < 16 := by omega
    rw [Nat.mod_eq_of_lt this]
    omega
  simp only [Option.some.injEq, Rgb.mk.injEq]
  refine ⟨?_, ?_, ?_⟩ <;> norm_cast

theorem jsRound_le_byte {q : ℚ} (h : q ≤ 255) : jsRound q ≤ 255 := by
  unfold jsRound
  have : (q + 1 / 2) < 255 + 1 := by linarith
  have h2 : Int.floor (q + 1 / 2) < (255 : ℤ) + 1 := by
    rw [Int.floor_lt]
    push_cast
    linarith
  omega

theorem roundRgb_bytes {c : Rgb} (hc : chanIn c) :
    (jsRound c.r).toNat ≤ 255 ∧ (jsRound c.g).toNat ≤ 255 ∧ (jsRound c.b).toNat ≤ 255 := by
  obtain ⟨h1, h2, h3, h4, h5, h6⟩ := hc
  refine ⟨?_, ?_, ?_⟩ <;>
    simp only [Int.toNat_le] <;>
    exact_mod_cast jsRound_le_byte (by assumption)

theorem tcParse_toHexString {c : Rgb} (hc : chanIn c) :
    tcParse (toHexString c) = some (roundRgb c) := by
  obtain ⟨hr, hg, hb⟩ := roundRgb_bytes hc
  unfold toHexString roundRgb
  exact tcParse_hex_of_bytes _ _ _ hr hg hb

theorem toHexString_roundRgb (c : Rgb) :
    toHexString (roundRgb c) = toHexString c := by
  unfold toHexString roundRgb
  simp only [jsRound_natCast, Int.toNat_natCast]

theorem tcmap_eq {s : String} {c : Rgb} (f : Rgb → Rgb) (h : tcParse s = some c) :
    tcmap s f = toHexString (f c) := by
  unfold tcmap
  rw [h]

theorem tcmap_id_toHexString {c : Rgb} (hc : chanIn c) :
    tcmap (toHexString c) (fun x => x) = toHexString c := by
  rw [tcmap_eq (fun x => x) (tcParse_toHexString hc)]
  exact toHexString_roundRgb c

end CPG

namespace CPG

theorem byteRgb_chanIn {c : Rgb} (h : byteRgb c) : chanIn c := by
  obtain ⟨⟨n1, hn1, e1⟩, ⟨n2, hn2, e2⟩, ⟨n3, hn3, e3⟩⟩ := h
  refine ⟨?_, ?_, ?_, ?_, ?_, ?_⟩
  · rw [e1]
    positivity
  · rw [e1]
    exact_mod_cast hn1
  · rw [e2]
    positivity
  · rw [e2]
    exact_mod_cast hn2
  · rw [e3]
    positivity
  · rw [e3]
    exact_mod_cast hn3

theorem hexMatch_byteRgb {cs : List Char} {c : Rgb} (h : hexMatch cs = some c) :
    byteRgb c := by
  unfold hexMatch at h
  simp only at h
  rcases e : (match cs with | '#' :: rest => rest | _ => cs).mapM hexDigitVal with _ | ds
  · rw [e] at h
    simp at h
  · rw [e] at h
    have hds := mapM_hexDigitVal_lt _ _ e
    rcases ds with _ | ⟨a, _ | ⟨b2, _ | ⟨c3, _ | ⟨d4, _ | ⟨e5, _ | ⟨f6, _ | ⟨g7, _ |
      ⟨h8, _ | ⟨i9, tl⟩⟩⟩⟩⟩⟩⟩⟩⟩
    · simp at h
    · simp at h
    · simp at h
    · injection h with h'
      subst h'
      have ha : a < 16 := hds a (by simp)
      have hb : b2 < 16 := hds b2 (by simp)
      have hc : c3 < 16 := hds c3 (by simp)
      exact ⟨⟨17 * a, by omega, rfl⟩, ⟨17 * b2, by omega, rfl⟩, ⟨17 * c3, by omega, rfl⟩⟩
    · injection h with h'
      subst h'
      have ha : a < 16 := hds a (by simp)
      have hb : b2 < 16 := hds b2 (by simp)
      have hc : c3 < 16 := hds c3 (by simp)
      exact ⟨⟨17 * a, by omega, rfl⟩, ⟨17 * b2, by omega, rfl⟩, ⟨17 * c3, by omega, rfl⟩⟩
    · simp at h
    · injection h with h'
      subst h'
      have ha : a < 16 := hds a (by simp)
      have hb : b2 < 16 := hds b2 (by simp)
      have hc : c3 < 16 := hds c3 (by simp)
      have hd : d4 < 16 := hds d4 (by simp)
      have he : e5 < 16 := hds e5 (by simp)
      have hf : f6 < 16 := hds f6 (by simp)
      exact ⟨⟨16 * a + b2, by omega, rfl⟩, ⟨16 * c3 + d4, by omega, rfl⟩,
        ⟨16 * e5 + f6, by omega, rfl⟩⟩
    · simp at h
    · injection h with h'
      subst h'
      have ha : a < 16 := hds a (by simp)
      have hb : b2 < 16 := hds b2 (by simp)
      have hc : c3 < 16 := hds c3 (by simp)
      have hd : d4 < 16 := hds d4 (by simp)
      have he : e5 < 16 := hds e5 (by simp)
      have hf : f6 < 16 := hds f6 (by simp)
      exact ⟨⟨16 * a + b2, by omega, rfl⟩, ⟨16 * c3 + d4, by omega, rfl⟩,
        ⟨16 * e5 + f6, by omega, rfl⟩⟩
    · simp at h

theorem tcParse_byteRgb {s : String} {c : Rgb} (h : tcParse s = some c) : byteRgb c := by
  unfold tcParse at h
  simp only at h
  rcases e : lookupNames (String.mk (trimLower s)) with _ | hx
  · rw [e] at h
    split_ifs at h with ht
    · injection h with h'
      subst h'
      exact ⟨⟨0, by norm_num, by norm_num⟩, ⟨0, by norm_num, by norm_num⟩,
        ⟨0, by norm_num, by norm_num⟩⟩
    · exact hexMatch_byteRgb h
  · rw [e] at h
    exact hexMatch_byteRgb h

theorem tcParse_chanIn {s : String} {c : Rgb} (h : tcParse s = some c) : chanIn c :=
  byteRgb_chanIn (tcParse_byteRgb h)

end CPG

namespace CPG

/-! Integrality: the complement of an exact-byte color again has exact-byte
channels, so its hex string reparses to exactly the same color. -/

theorem isByte_mk {x : ℚ} {z : ℤ} (he : x = z) (h0 : 0 ≤ x) (h1 : x ≤ 255) : isByte x := by
  have hz0 : 0 ≤ z := by exact_mod_cast he ▸ h0
  have hz1 : z ≤ 255 := by exact_mod_cast he ▸ h1
  refine ⟨z.toNat, by omega, ?_⟩
  rw [he]
  exact_mod_cast (Int.toNat_of_nonneg hz0).symm

theorem hue2rgb_int {p q t : ℚ} {zp zq z6 : ℤ} (hp : p * 255 = zp) (hq : q * 255 = zq)
    (hz6 : (q - p) * 255 * (6 * t) = z6) :
    ∃ z : ℤ, hue2rgb p q t * 255 = z := by
  unfold hue2rgb
  simp only
  set u := if (if t < 0 then t + 1 else t) > 1 then (if t < 0 then t + 1 else t) - 1
    else (if t < 0 then t + 1 else t) with hu
  have hzu : ∃ zu : ℤ, (q - p) * 255 * (6 * u) = zu := by
    rw [hu]
    split_ifs with s1 s2 s3
    · exact ⟨z6, by linear_combination hz6⟩
    · exact ⟨z6 + 6 * (zq - zp), by push_cast; linear_combination hz6 + 6 * hq - 6 * hp⟩
    · exact ⟨z6 - 6 * (zq - zp), by push_cast; linear_combination hz6 - 6 * hq + 6 * hp⟩
    · exact ⟨z6, by linear_combination hz6⟩
  obtain ⟨zu, hzu⟩ := hzu
  split_ifs with a1 a2 a3
  · exact ⟨zp + zu, by push_cast; linear_combination hp + hzu⟩
  · exact ⟨zq, by linear_combination hq⟩
  · exact ⟨zp + 4 * (zq - zp) - zu, by push_cast; linear_combination (-3 : ℚ) * hp + 4 * hq - hzu⟩
  · exact ⟨zp, by linear_combination hp⟩

theorem q_reproduce (MX MN S : ℚ) (h0 : 0 ≤ MN) (hlt : MN < MX) (h1 : MX ≤ 1)
    (hS : S = if (MX + MN) / 2 > 1 / 2 then (MX - MN) / (2 - MX - MN)
      else (MX - MN) / (MX + MN)) :
    (if (MX + MN) / 2 < 1 / 2 then ((MX + MN) / 2) * (1 + S)
      else (MX + MN) / 2 + S - ((MX + MN) / 2) * S) = MX := by
  have hMXpos : (0 : ℚ) < MX := lt_of_le_of_lt h0 hlt
  have hsum : (0 : ℚ) < MX + MN := by linarith
  have hden2 : (0 : ℚ) < 2 - MX - MN := by linarith
  subst hS
  split_ifs with hA hB hB
  · linarith
  · field_simp
    ring
  · field_simp
    ring
  · have hsum1 : MX + MN = 1 := by linarith
    field_simp
    linear_combination (-2 : ℚ) * (MX - MN) * hsum1

end CPG

namespace CPG

set_option maxHeartbeats 4000000 in
/-- The complement of an exact-byte color has exact-byte channels: the
maximum and minimum channels are reproduced and the middle channel is an
integer combination of the byte values (the hue times the spread is an
integer, and adding 180 degrees preserves that). -/
theorem complement_byteRgb {c : Rgb} (hc : byteRgb c) : byteRgb (complement c) := by
  obtain ⟨⟨nr, hnr, er⟩, ⟨ng, hng, eg⟩, ⟨nb, hnb, eb⟩⟩ := hc
  have eR : bound01 c.r 255 = (nr : ℚ) / 255 := by
    rw [er, bound01_of_mem (by positivity) (by exact_mod_cast hnr)]
  have eG : bound01 c.g 255 = (ng : ℚ) / 255 := by
    rw [eg, bound01_of_mem (by positivity) (by exact_mod_cast hng)]
  have eB : bound01 c.b 255 = (nb : ℚ) / 255 := by
    rw [eb, bound01_of_mem (by positivity) (by exact_mod_cast hnb)]
  set Rv : ℚ := (nr : ℚ) / 255 with hRv
  set Gv : ℚ := (ng : ℚ) / 255 with hGv
  set Bv : ℚ := (nb : ℚ) / 255 with hBv
  set MXv := max Rv (max Gv Bv) with hMXv
  set MNv := min Rv (min Gv Bv) with hMNv
  have eMX : MXv = ((max nr (max ng nb) : ℕ) : ℚ) / 255 := by
    rw [hMXv, hRv, hGv, hBv, max_div_div_right (by norm_num : (0:ℚ) ≤ 255),
      max_div_div_right (by norm_num : (0:ℚ) ≤ 255)]
    norm_cast
  have eMN : MNv = ((min nr (min ng nb) : ℕ) : ℚ) / 255 := by
    rw [hMNv, hRv, hGv, hBv, min_div_div_right (by norm_num : (0:ℚ) ≤ 255),
      min_div_div_right (by norm_num : (0:ℚ) ≤ 255)]
    norm_cast
  set NX : ℕ := max nr (max ng nb) with hNXd
  set NN : ℕ := min nr (min ng nb) with hNNd
  have hNX255 : NX ≤ 255 := by omega
  have hNN255 : NN ≤ 255 := by omega
  have hNNX : NN ≤ NX := by omega
  have hRv0 : (0:ℚ) ≤ Rv := by rw [hRv]; positivity
  have hGv0 : (0:ℚ) ≤ Gv := by rw [hGv]; positivity
  have hBv0 : (0:ℚ) ≤ Bv := by rw [hBv]; positivity
  have hRv1 : Rv ≤ 1 := by rw [hRv, div_le_one (by norm_num)]; exact_mod_cast hnr
  have hGv1 : Gv ≤ 1 := by rw [hGv, div_le_one (by norm_num)]; exact_mod_cast hng
  have hBv1 : Bv ≤ 1 := by rw [hBv, div_le_one (by norm_num)]; exact_mod_cast hnb
  have hMX1 : MXv ≤ 1 := by rw [hMXv]; exact max_le hRv1 (max_le hGv1 hBv1)
  have hMN0 : (0:ℚ) ≤ MNv := by rw [hMNv]; exact le_min hRv0 (le_min hGv0 hBv0)
  have hMNleMX : MNv ≤ MXv := by
    rw [eMX, eMN]
    gcongr
  by_cases hmx : MXv = MNv
  · have hre : rgbToHsl c = (0, 0, (MXv + MNv) / 2) := by
      unfold rgbToHsl
      simp only
      rw [eR, eG, eB, ← hMXv, ← hMNv, if_pos hmx]
    rw [complement_eq, hre]
    dsimp only
    rw [show (0:ℚ) * 360 + 180 = 180 by ring]
    rw [jsMod_small (by norm_num) (by norm_num)]
    rw [hslToRgb_s0]
    have hLv : (MXv + MNv) / 2 = (NX : ℚ) / 255 := by
      rw [← hmx, eMX]
      ring
    rw [hLv]
    rw [clamp01_of_mem (by positivity) (by rw [div_le_one (by norm_num)]; exact_mod_cast hNX255)]
    rw [div_mul_cancel₀ _ (show (255:ℚ) ≠ 0 by norm_num)]
    exact ⟨⟨NX, hNX255, rfl⟩, ⟨NX, hNX255, rfl⟩, ⟨NX, hNX255, rfl⟩⟩
  · have hlt : MNv < MXv := lt_of_le_of_ne hMNleMX (fun hh => hmx hh.symm)
    have hdpos : (0:ℚ) < MXv - MNv := by linarith
    have hdne : MXv - MNv ≠ 0 := ne_of_gt hdpos
    have hMXpos : (0:ℚ) < MXv := lt_of_le_of_lt hMN0 hlt
    set Hx := (if MXv = Rv then (Gv - Bv) / (MXv - MNv) + (if Gv < Bv then 6 else 0)
      else if MXv = Gv then (Bv - Rv) / (MXv - MNv) + 2
      else (Rv - Gv) / (MXv - MNv) + 4) with hHxd
    set Sx := (if (MXv + MNv) / 2 > 1 / 2 then (MXv - MNv) / (2 - MXv - MNv)
      else (MXv - MNv) / (MXv + MNv)) with hSxd
    have hre : rgbToHsl c = (Hx / 6, Sx, (MXv + MNv) / 2) := by
      unfold rgbToHsl
      simp only
      rw [eR, eG, eB, ← hMXv, ← hMNv, if_neg hmx, hHxd, hSxd]
    have hb := rgbToHsl_bounds c
    rw [hre] at hb
    obtain ⟨bhf0, bhf1, bs0, bs1, bl0, bl1, _, _⟩ := hb
    dsimp only at bhf0 bhf1 bs0 bs1 bl0 bl1
    have hSpos : (0:ℚ) < Sx := by
      rw [hSxd]
      split_ifs with hcond
      · exact div_pos hdpos (by linarith)
      · exact div_pos hdpos (by linarith)
    have hLpos : (0:ℚ) < (MXv + MNv) / 2 := by linarith
    have hLlt : (MXv + MNv) / 2 < 1 := by linarith
    rw [complement_eq, hre]
    dsimp only
    have hHx0 : (0:ℚ) ≤ Hx := by linarith [bhf0]
    have harg0 : (0:ℚ) ≤ Hx / 6 * 360 + 180 := by linarith
    have hm0 : (0:ℚ) ≤ jsMod (Hx / 6 * 360 + 180) 360 := jsMod_nonneg harg0 (by norm_num)
    have hm1 : jsMod (Hx / 6 * 360 + 180) 360 < 360 := jsMod_lt harg0 (by norm_num)
    have hZD : (MXv - MNv) * 255 = (NX : ℚ) - (NN : ℚ) := by
      rw [eMX, eMN]
      ring
    have hKEY : ∃ z : ℤ, (MXv - MNv) * 255 * Hx = z := by
      rw [hHxd]
      split_ifs with e1 e2 e3
      · refine ⟨((ng : ℤ) - nb) + 6 * ((NX:ℤ) - NN), ?_⟩
        rw [show (MXv - MNv) * 255 * ((Gv - Bv) / (MXv - MNv) + 6)
            = (Gv - Bv) * 255 + 6 * ((MXv - MNv) * 255) from by field_simp; ring]
        rw [hZD, hGv, hBv]
        push_cast
        ring
      · refine ⟨((ng : ℤ) - nb), ?_⟩
        rw [show (MXv - MNv) * 255 * ((Gv - Bv) / (MXv - MNv) + 0)
            = (Gv - Bv) * 255 from by field_simp; ring]
        rw [hGv, hBv]
        push_cast
        ring
      · refine ⟨((nb : ℤ) - nr) + 2 * ((NX:ℤ) - NN), ?_⟩
        rw [show (MXv - MNv) * 255 * ((Bv - Rv) / (MXv - MNv) + 2)
            = (Bv - Rv) * 255 + 2 * ((MXv - MNv) * 255) from by field_simp; ring]
        rw [hZD, hBv, hRv]
        push_cast
        ring
      · refine ⟨((nr : ℤ) - ng) + 4 * ((NX:ℤ) - NN), ?_⟩
        rw [show (MXv - MNv) * 255 * ((Rv - Gv) / (MXv - MNv) + 4)
            = (Rv - Gv) * 255 + 4 * ((MXv - MNv) * 255) from by field_simp; ring]
        rw [hZD, hRv, hGv]
        push_cast
        ring
    obtain ⟨zH, hzH⟩ := hKEY
    set K : ℤ := ratTrunc ((Hx / 6 * 360 + 180) / 360) with hKd
    have hk : jsMod (Hx / 6 * 360 + 180) 360 = Hx / 6 * 360 + 180 - 360 * (K : ℚ) := by
      rw [hKd]
      rfl
    have hb01h : bound01 (jsMod (Hx / 6 * 360 + 180) 360) 360
        = jsMod (Hx / 6 * 360 + 180) 360 / 360 := bound01_of_mem hm0 (le_of_lt hm1)
    have hz6 : (MXv - MNv) * 255 * (6 * bound01 (jsMod (Hx / 6 * 360 + 180) 360) 360)
        = ((zH + 3 * ((NX:ℤ) - NN) - 6 * K * ((NX:ℤ) - NN) : ℤ) : ℚ) := by
      rw [hb01h, hk]
      push_cast
      linear_combination hzH + 3 * hZD - 6 * (K:ℚ) * hZD
    unfold hslToRgb
    simp only
    rw [clamp01_of_mem (le_of_lt hSpos) bs1, clamp01_of_mem (le_of_lt hLpos) (le_of_lt hLlt)]
    rw [if_neg (ne_of_gt hSpos)]
    rw [q_reproduce MXv MNv Sx hMN0 hlt hMX1 hSxd]
    rw [show 2 * ((MXv + MNv) / 2) - MXv = MNv by ring]
    set F := bound01 (jsMod (Hx / 6 * 360 + 180) 360) 360 with hFd
    have hpZ : MNv * 255 = ((NN : ℤ) : ℚ) := by
      rw [eMN]
      push_cast
      ring
    have hqZ : MXv * 255 = ((NX : ℤ) : ℚ) := by
      rw [eMX]
      push_cast
      ring
    have hz6r : (MXv - MNv) * 255 * (6 * (F + 1/3))
        = (((zH + 3 * ((NX:ℤ) - NN) - 6 * K * ((NX:ℤ) - NN)) + 2 * ((NX:ℤ) - NN) : ℤ) : ℚ) := by
      rw [hFd]
      push_cast
      push_cast at hz6
      linear_combination hz6 + 2 * hZD
    have hz6l : (MXv - MNv) * 255 * (6 * (F - 1/3))
        = (((zH + 3 * ((NX:ℤ) - NN) - 6 * K * ((NX:ℤ) - NN)) - 2 * ((NX:ℤ) - NN) : ℤ) : ℚ) := by
      rw [hFd]
      push_cast
      push_cast at hz6
      linear_combination hz6 - 2 * hZD
    have hz6m : (MXv - MNv) * 255 * (6 * F)
        = ((zH + 3 * ((NX:ℤ) - NN) - 6 * K * ((NX:ℤ) - NN) : ℤ) : ℚ) := by
      rw [hFd]
      exact hz6
    obtain ⟨z1, hch1⟩ := hue2rgb_int hpZ hqZ hz6r
    obtain ⟨z2, hch2⟩ := hue2rgb_int hpZ hqZ hz6m
    obtain ⟨z3, hch3⟩ := hue2rgb_int hpZ hqZ hz6l
    have hF0 : (0:ℚ) ≤ F := by
      rw [hFd]
      exact bound01_nonneg (by norm_num)
    have hF1 : F ≤ 1 := by
      rw [hFd]
      exact bound01_le_one (by norm_num)
    have hr1 := hue2rgb_range hMN0 (le_of_lt hlt) hMX1 (show (-1:ℚ) ≤ F + 1/3 by linarith)
    have hr2 := hue2rgb_range hMN0 (le_of_lt hlt) hMX1 (show (-1:ℚ) ≤ F by linarith)
    have hr3 := hue2rgb_range hMN0 (le_of_lt hlt) hMX1 (show (-1:ℚ) ≤ F - 1/3 by linarith)
    exact ⟨isByte_mk hch1 (by linarith [hr1.1]) (by linarith [hr1.2]),
      isByte_mk hch2 (by linarith [hr2.1]) (by linarith [hr2.2]),
      isByte_mk hch3 (by linarith [hr3.1]) (by linarith [hr3.2])⟩

end CPG

namespace CPG

/-! Helpers for the palette-level claims. -/

theorem roundRgb_of_byteRgb {c : Rgb} (hc : byteRgb c) : roundRgb c = c := by
  obtain ⟨⟨nr, _, er⟩, ⟨ng, _, eg⟩, ⟨nb, _, eb⟩⟩ := hc
  cases c
  unfold roundRgb
  simp only at er eg eb
  rw [er, eg, eb, jsRound_natCast, jsRound_natCast, jsRound_natCast]
  simp

theorem lighten_chanIn (c : Rgb) (a : ℚ) : chanIn (lighten c a) :=
  hslToRgb_chanIn _ _ _

theorem darken_chanIn (c : Rgb) (a : ℚ) : chanIn (darken c a) :=
  hslToRgb_chanIn _ _ _

theorem desaturate_chanIn (c : Rgb) (a : ℚ) : chanIn (desaturate c a) :=
  hslToRgb_chanIn _ _ _

theorem spin_chanIn (c : Rgb) (a : ℚ) : chanIn (spin c a) :=
  hslToRgb_chanIn _ _ _

theorem complement_chanIn (c : Rgb) : chanIn (complement c) :=
  hslToRgb_chanIn _ _ _

theorem gHP_some {h : String} {base : Rgb} (hp : tcParse h = some base) (rule : String) :
    ∃ l, generateHarmonyPalette h rule = some l := by
  unfold generateHarmonyPalette
  rw [hp]
  exact ⟨_, rfl⟩

theorem gHP_complement_eval {h : String} {base : Rgb} (hp : tcParse h = some base) :
    generateHarmonyPalette h "complement" = some
      [tcmap (toHexString base) (fun x => x),
       tcmap (toHexString (lighten base 20)) (fun x => x),
       tcmap (toHexString (complement base)) (fun x => x),
       tcmap (tcmap (toHexString (complement base)) (fun x => lighten x 20)) (fun x => x),
       tcmap (toHexString (desaturate (spin base 30) 10)) (fun x => x)] := by
  unfold generateHarmonyPalette
  rw [hp]
  with_unfolding_all rfl

theorem gHP_shades_eval {h : String} {base : Rgb} (hp : tcParse h = some base) :
    generateHarmonyPalette h "shades" = some
      [tcmap (toHexString (darken base 30)) (fun x => x),
       tcmap (toHexString (darken base 15)) (fun x => x),
       tcmap (toHexString base) (fun x => x),
       tcmap (toHexString (lighten base 15)) (fun x => x),
       tcmap (toHexString (lighten base 30)) (fun x => x)] := by
  unfold generateHarmonyPalette
  rw [hp]
  with_unfolding_all rfl

theorem gHP_mono_eval {h : String} {base : Rgb} (hp : tcParse h = some base) :
    generateHarmonyPalette h "monochromatic" = some
      (((monochromatic base 5).map toHexString).map (fun color => tcmap color (fun x => x))) := by
  unfold generateHarmonyPalette
  rw [hp]
  with_unfolding_all rfl

end CPG

namespace CPG

/-- C1: for every parseable base color string and every recognized harmony
rule (analogous, monochromatic, splitcomplement, triad, tetrad, complement,
shades) the palette returned by generateHarmonyPalette has exactly 5
elements; for any unrecognized rule it is the single-element list holding
the normalized base color. -/
theorem C1_palette_lengths (h rule : String) (base : Rgb) (hp : tcParse h = some base) :
    ∃ l, generateHarmonyPalette h rule = some l ∧
      (rule ∈ recognizedRules → l.length = 5) ∧
      (rule ∉ recognizedRules → l = [toHexString base]) := by
  by_cases hr : rule ∈ recognizedRules
  · have hr' := hr
    simp only [recognizedRules, List.mem_cons, List.not_mem_nil, or_false] at hr
    unfold generateHarmonyPalette
    rw [hp]
    rcases hr with rfl | rfl | rfl | rfl | rfl | rfl | rfl <;>
      exact ⟨_, rfl, fun _ => by with_unfolding_all rfl, fun hn => absurd hr' hn⟩
  · refine ⟨[tcmap (toHexString base) (fun x => x)], ?_, fun hm => absurd hm hr, fun _ => ?_⟩
    · have hr2 := hr
      simp only [recognizedRules, List.mem_cons, List.not_mem_nil, or_false, not_or] at hr2
      obtain ⟨h1, h2, h3, h4, h5, h6, h7⟩ := hr2
      unfold generateHarmonyPalette
      rw [hp]
      simp only [if_neg h1, if_neg h2, if_neg h3, if_neg h4, if_neg h5, if_neg h6, if_neg h7]
      rfl
    · rw [tcmap_id_toHexString (tcParse_chanIn hp)]

/-- Witness for C1 at a concrete input. -/
theorem C1_palette_lengths_witness :
    tcParse "#3498db" = some ⟨52, 152, 219⟩ ∧
    ∃ l, generateHarmonyPalette "#3498db" "triad" = some l ∧
      ("triad" ∈ recognizedRules → l.length = 5) ∧
      ("triad" ∉ recognizedRules → l = [toHexString (⟨52, 152, 219⟩ : Rgb)]) :=
  ⟨by decide, C1_palette_lengths "#3498db" "triad" ⟨52, 152, 219⟩ (by decide)⟩

end CPG

namespace CPG

/-- C2: for every parseable base color the complement rule yields the
5-element sequence base, lighten(base, 20), complement(base),
lighten(complement(base), 20), spin(desaturate(base, 10), 30), each
normalized to hex.  The fifth element equals the base desaturated by 10
percent and then hue-spun by 30 degrees: the code spins first and then
desaturates, but the two operations commute. -/
theorem C2_complement_sequence (h : String) (base : Rgb) (hp : tcParse h = some base) :
    generateHarmonyPalette h "complement" = some
      [toHexString base,
       toHexString (lighten base 20),
       toHexString (complement base),
       toHexString (lighten (complement base) 20),
       toHexString (spin (desaturate base 10) 30)] := by
  have hb := tcParse_byteRgb hp
  have hcb : chanIn base := byteRgb_chanIn hb
  have e3i : tcmap (toHexString (complement base)) (fun x => lighten x 20)
      = toHexString (lighten (complement base) 20) := by
    rw [tcmap_eq (fun x => lighten x 20) (tcParse_toHexString (complement_chanIn base))]
    rw [roundRgb_of_byteRgb (complement_byteRgb hb)]
  rw [gHP_complement_eval hp, e3i,
    tcmap_id_toHexString hcb,
    tcmap_id_toHexString (lighten_chanIn base 20),
    tcmap_id_toHexString (complement_chanIn base),
    tcmap_id_toHexString (lighten_chanIn (complement base) 20),
    tcmap_id_toHexString (desaturate_chanIn (spin base 30) 10),
    spin_desaturate_comm]

/-- Witness for C2 at a concrete input. -/
theorem C2_complement_sequence_witness :
    tcParse "#3498db" = some ⟨52, 152, 219⟩ ∧
    generateHarmonyPalette "#3498db" "complement" = some
      [toHexString (⟨52, 152, 219⟩ : Rgb),
       toHexString (lighten (⟨52, 152, 219⟩ : Rgb) 20),
       toHexString (complement (⟨52, 152, 219⟩ : Rgb)),
       toHexString (lighten (complement (⟨52, 152, 219⟩ : Rgb)) 20),
       toHexString (spin (desaturate (⟨52, 152, 219⟩ : Rgb) 10) 30)] :=
  ⟨by decide, C2_complement_sequence "#3498db" ⟨52, 152, 219⟩ (by decide)⟩

end CPG

namespace CPG

/-- C3 (amended): the wheel handler adds 360 to a negative angle and keeps
a nonnegative angle unchanged, which normalizes exactly the angles in
[-360, 360) into [0, 360) (the atan2-derived angles lie in [-180, 180]);
saturation and lightness are untouched, and an input angle of -10 yields
hue 350.  The original claim's example 370 is not normalized to 10. -/
theorem C3_wheel_hue_normalization (st : PickerState) (a : ℚ)
    (h0 : -360 ≤ a) (h1 : a < 360) :
    (hueWheelMousedown st a).saturation = st.saturation ∧
    (hueWheelMousedown st a).lightness = st.lightness ∧
    0 ≤ (hueWheelMousedown st a).hue ∧ (hueWheelMousedown st a).hue < 360 ∧
    (a < 0 → (hueWheelMousedown st a).hue = a + 360) ∧
    (0 ≤ a → (hueWheelMousedown st a).hue = a) ∧
    wheelAngleToHue (-10) = 350 := by
  unfold hueWheelMousedown wheelAngleToHue
  dsimp only
  refine ⟨rfl, rfl, ?_, ?_, ?_, ?_, by norm_num⟩
  · split_ifs with hneg
    · linarith
    · linarith [not_lt.mp hneg]
  · split_ifs with hneg
    · linarith
    · exact h1
  · intro ha
    rw [if_pos ha]
  · intro ha
    rw [if_neg (not_lt.mpr ha)]

/-- Counterexample to C3 as stated: an input angle of 370 yields hue 370,
not 10; the handler only adds 360 to negative angles and never reduces
angles of 360 or more. -/
theorem C3_wheel_counterexample :
    (hueWheelMousedown ⟨0, 0, 0⟩ 370).hue = 370 ∧ (370 : ℚ) ≠ 10 := by
  constructor
  · unfold hueWheelMousedown wheelAngleToHue
    norm_num
  · norm_num

/-- Witness for C3 at a concrete input. -/
theorem C3_wheel_hue_normalization_witness :
    ((-360 : ℚ) ≤ -10 ∧ (-10 : ℚ) < 360) ∧
    ((hueWheelMousedown ⟨0, 0, 0⟩ (-10)).saturation = (⟨0, 0, 0⟩ : PickerState).saturation ∧
     (hueWheelMousedown ⟨0, 0, 0⟩ (-10)).lightness = (⟨0, 0, 0⟩ : PickerState).lightness ∧
     0 ≤ (hueWheelMousedown ⟨0, 0, 0⟩ (-10)).hue ∧
     (hueWheelMousedown ⟨0, 0, 0⟩ (-10)).hue < 360 ∧
     ((-10 : ℚ) < 0 → (hueWheelMousedown ⟨0, 0, 0⟩ (-10)).hue = -10 + 360) ∧
     ((0 : ℚ) ≤ -10 → (hueWheelMousedown ⟨0, 0, 0⟩ (-10)).hue = -10) ∧
     wheelAngleToHue (-10) = 350) :=
  ⟨⟨by norm_num, by norm_num⟩,
   C3_wheel_hue_normalization ⟨0, 0, 0⟩ (-10) (by norm_num) (by norm_num)⟩

/-- C4: a base color string the parser rejects makes generateHarmonyPalette
return none (the script alerts and returns null, displaying no palette) for
every rule, and the hex input handler leaves the picker state unchanged. -/
theorem C4_invalid_input (s rule : String) (st : PickerState) (hp : tcParse s = none) :
    generateHarmonyPalette s rule = none ∧ baseColorInputHandler st s = st := by
  constructor
  · unfold generateHarmonyPalette
    rw [hp]
  · unfold baseColorInputHandler
    rw [hp]

/-- Witness for C4 at a concrete input. -/
theorem C4_invalid_input_witness :
    tcParse "notacolor" = none ∧
    (generateHarmonyPalette "notacolor" "analogous" = none ∧
     baseColorInputHandler ⟨0, 0, 0⟩ "notacolor" = ⟨0, 0, 0⟩) :=
  ⟨by decide, C4_invalid_input "notacolor" "analogous" ⟨0, 0, 0⟩ (by decide)⟩

/-- C5: for every parseable base color the shades rule yields the sequence
darken(base, 30), darken(base, 15), base, lighten(base, 15),
lighten(base, 30), each normalized to hex; the center element at index 2 is
the normalized hex of the base. -/
theorem C5_shades_sequence (h : String) (base : Rgb) (hp : tcParse h = some base) :
    generateHarmonyPalette h "shades" = some
      [toHexString (darken base 30), toHexString (darken base 15), toHexString base,
       toHexString (lighten base 15), toHexString (lighten base 30)] ∧
    [toHexString (darken base 30), toHexString (darken base 15), toHexString base,
     toHexString (lighten base 15), toHexString (lighten base 30)].getD 2 "" =
      toHexString base := by
  refine ⟨?_, rfl⟩
  have hcb : chanIn base := tcParse_chanIn hp
  rw [gHP_shades_eval hp,
    tcmap_id_toHexString (darken_chanIn base 30),
    tcmap_id_toHexString (darken_chanIn base 15),
    tcmap_id_toHexString hcb,
    tcmap_id_toHexString (lighten_chanIn base 15),
    tcmap_id_toHexString (lighten_chanIn base 30)]

/-- Witness for C5 at a concrete input. -/
theorem C5_shades_sequence_witness :
    tcParse "#3498db" = some ⟨52, 152, 219⟩ ∧
    (generateHarmonyPalette "#3498db" "shades" = some
      [toHexString (darken (⟨52, 152, 219⟩ : Rgb) 30),
       toHexString (darken (⟨52, 152, 219⟩ : Rgb) 15),
       toHexString (⟨52, 152, 219⟩ : Rgb),
       toHexString (lighten (⟨52, 152, 219⟩ : Rgb) 15),
       toHexString (lighten (⟨52, 152, 219⟩ : Rgb) 30)] ∧
     [toHexString (darken (⟨52, 152, 219⟩ : Rgb) 30),
      toHexString (darken (⟨52, 152, 219⟩ : Rgb) 15),
      toHexString (⟨52, 152, 219⟩ : Rgb),
      toHexString (lighten (⟨52, 152, 219⟩ : Rgb) 15),
      toHexString (lighten (⟨52, 152, 219⟩ : Rgb) 30)].getD 2 "" =
       toHexString (⟨52, 152, 219⟩ : Rgb)) :=
  ⟨by decide, C5_shades_sequence "#3498db" ⟨52, 152, 219⟩ (by decide)⟩

end CPG

namespace CPG

theorem matchesHexColorFormat_mk (L : List Char) (h6 : L.length = 6)
    (hall : ∀ c ∈ L, isHexDigitAny c = true) :
    matchesHexColorFormat (String.mk ('#' :: L)) = true := by
  unfold matchesHexColorFormat
  show (decide (L.length = 6) && L.all isHexDigitAny) = true
  rw [List.all_eq_true.mpr hall, h6]
  simp

/-- C6 (amended): every element of the monochromatic palette is printed
from a color synthesized at the base's exact HSV hue and saturation, with
only the value cycling in steps of one fifth; the rounded hue recovered by
reparsing the printed hex can nevertheless drift from the base's rounded
hue by rounding of the channels. -/
theorem C6_monochromatic_values (h : String) (base : Rgb) (hp : tcParse h = some base) :
    generateHarmonyPalette h "monochromatic" =
      some ((monochromatic base 5).map toHexString) ∧
    monochromatic base 5 = (monoVs (1 / 5) 5 (toHsv base).2.2).map
      (fun v => fromHsv (toHsv base).1 (toHsv base).2.1 v) := by
  constructor
  · rw [gHP_mono_eval hp, List.map_map]
    apply congrArg
    apply List.map_congr_left
    intro c hc
    simp only [monochromatic, List.mem_map] at hc
    obtain ⟨v, hv, rfl⟩ := hc
    simp only [Function.comp]
    exact tcmap_id_toHexString (hsvToRgb_chanIn _ _ _)
  · with_unfolding_all rfl

/-- Counterexample to C6 as stated: the monochromatic palette of #ff8000
contains #331a00, whose rounded hue is 31, while the base's rounded hue is
30. -/
theorem C6_monochromatic_counterexample :
    generateHarmonyPalette "#ff8000" "monochromatic" =
      some ["#ff8000", "#331a00", "#663300", "#994d00", "#cc6600"] ∧
    roundedHueOfHex "#ff8000" = some 30 ∧
    roundedHueOfHex "#331a00" = some 31 :=
  ⟨by with_unfolding_all rfl, by with_unfolding_all rfl, by with_unfolding_all rfl⟩

/-- Witness for C6 at a concrete input. -/
theorem C6_monochromatic_values_witness :
    tcParse "#ff8000" = some ⟨255, 128, 0⟩ ∧
    (generateHarmonyPalette "#ff8000" "monochromatic" =
      some ((monochromatic ⟨255, 128, 0⟩ 5).map toHexString) ∧
     monochromatic (⟨255, 128, 0⟩ : Rgb) 5 =
      (monoVs (1 / 5) 5 (toHsv (⟨255, 128, 0⟩ : Rgb)).2.2).map
        (fun v => fromHsv (toHsv (⟨255, 128, 0⟩ : Rgb)).1
          (toHsv (⟨255, 128, 0⟩ : Rgb)).2.1 v)) :=
  ⟨by decide, C6_monochromatic_values "#ff8000" ⟨255, 128, 0⟩ (by decide)⟩

/-- C7: whatever values in [0, 1) the random source yields, the random
palette generator returns exactly 5 strings, each matching the regular
expression for a 6-digit hex color. -/
theorem C7_random_palette (rnd : ℕ → ℚ) (hr : ∀ i, 0 ≤ rnd i ∧ rnd i < 1) :
    (generatePalette rnd).length = 5 ∧
    ∀ s ∈ generatePalette rnd, matchesHexColorFormat s = true := by
  constructor
  · rfl
  · intro s hs
    simp only [generatePalette, List.mem_map, List.mem_range] at hs
    obtain ⟨i, hi, rfl⟩ := hs
    unfold getRandomHexColor
    apply matchesHexColorFormat_mk
    · simp
    · intro c hc
      simp only [List.mem_map, List.mem_range] at hc
      obtain ⟨j, hj, rfl⟩ := hc
      have key : ∀ n : ℕ, n < 16 → isHexDigitAny (randomHexChars.getD n 'X') = true := by
        decide
      apply key
      obtain ⟨hr0, hr1⟩ := hr (6 * i + j)
      have hf1 : ⌊rnd (6 * i + j) * 16⌋ < (16 : ℤ) := by
        rw [Int.floor_lt]
        push_cast
        linarith
      have hf0 : (0 : ℤ) ≤ ⌊rnd (6 * i + j) * 16⌋ :=
        Int.floor_nonneg.mpr (by positivity)
      omega

/-- Witness for C7 at a concrete input. -/
theorem C7_random_palette_witness :
    (∀ i : ℕ, 0 ≤ (fun _ : ℕ => (0 : ℚ)) i ∧ (fun _ : ℕ => (0 : ℚ)) i < 1) ∧
    ((generatePalette (fun _ : ℕ => (0 : ℚ))).length = 5 ∧
     ∀ s ∈ generatePalette (fun _ : ℕ => (0 : ℚ)), matchesHexColorFormat s = true) :=
  ⟨fun _ => ⟨le_rfl, by norm_num⟩,
   C7_random_palette (fun _ : ℕ => (0 : ℚ)) (fun _ => ⟨le_rfl, by norm_num⟩)⟩

end CPG

namespace CPG

/-- C8: each state-mutating handler preserves the picker invariant, hue in
[0, 360) and saturation and lightness in [0, 1]; the saturation-lightness
pad clamps the pointer position before assigning, so the invariant holds
even when the pointer lies outside the canvas, and the wheel handlers
receive an atan2-derived angle in [-180, 180]. -/
theorem C8_handler_invariants (st : PickerState) (s : String) (a x y w hh : ℚ)
    (dh ds : Bool) (hinv : PickerInv st) (ha0 : -180 ≤ a) (ha1 : a ≤ 180) :
    PickerInv (baseColorInputHandler st s) ∧
    PickerInv (hueWheelMousedown st a) ∧
    PickerInv (hueWheelMousemove dh st a) ∧
    PickerInv (slPickerMousedown st x y w hh) ∧
    PickerInv (slPickerMousemove ds st x y w hh) := by
  obtain ⟨i1, i2, i3, i4, i5, i6⟩ := hinv
  have hwheel : PickerInv (hueWheelMousedown st a) := by
    unfold hueWheelMousedown wheelAngleToHue PickerInv
    dsimp only
    split_ifs with hneg
    · exact ⟨by linarith, by linarith, i3, i4, i5, i6⟩
    · exact ⟨not_lt.mp hneg, by linarith, i3, i4, i5, i6⟩
  have hsl : PickerInv (slPickerMousedown st x y w hh) := by
    unfold slPickerMousedown PickerInv
    dsimp only
    have hs1 : max 0 (min 1 (x / w)) ≤ 1 := max_le zero_le_one (min_le_left _ _)
    have hl0 : max 0 (min 1 (y / hh)) ≤ 1 := max_le zero_le_one (min_le_left _ _)
    have hl1 : (0 : ℚ) ≤ max 0 (min 1 (y / hh)) := le_max_left _ _
    exact ⟨i1, i2, le_max_left _ _, hs1, by linarith, by linarith⟩
  have hhex : PickerInv (baseColorInputHandler st s) := by
    unfold baseColorInputHandler
    cases htc : tcParse s with
    | none => exact ⟨i1, i2, i3, i4, i5, i6⟩
    | some c =>
      obtain ⟨b1, b2, b3, b4, b5, b6, _, _⟩ := rgbToHsl_bounds c
      unfold toHsl PickerInv
      dsimp only
      refine ⟨by positivity, by linarith, b3, b4, b5, b6⟩
  have hwm : PickerInv (hueWheelMousemove dh st a) := by
    unfold hueWheelMousemove
    split_ifs
    · exact hwheel
    · exact ⟨i1, i2, i3, i4, i5, i6⟩
  have hslm : PickerInv (slPickerMousemove ds st x y w hh) := by
    unfold slPickerMousemove
    split_ifs
    · exact hsl
    · exact ⟨i1, i2, i3, i4, i5, i6⟩
  exact ⟨hhex, hwheel, hwm, hsl, hslm⟩

/-- Witness for C8 at a concrete input. -/
theorem C8_handler_invariants_witness :
    (PickerInv ⟨0, 0, 0⟩ ∧ (-180 : ℚ) ≤ 0 ∧ (0 : ℚ) ≤ 180) ∧
    (PickerInv (baseColorInputHandler ⟨0, 0, 0⟩ "") ∧
     PickerInv (hueWheelMousedown ⟨0, 0, 0⟩ 0) ∧
     PickerInv (hueWheelMousemove false ⟨0, 0, 0⟩ 0) ∧
     PickerInv (slPickerMousedown ⟨0, 0, 0⟩ 0 0 0 0) ∧
     PickerInv (slPickerMousemove false ⟨0, 0, 0⟩ 0 0 0 0)) :=
  ⟨⟨⟨le_rfl, by norm_num, le_rfl, by norm_num, le_rfl, by norm_num⟩, by norm_num, by norm_num⟩,
   C8_handler_invariants ⟨0, 0, 0⟩ "" 0 0 0 0 0 false false
     ⟨le_rfl, by norm_num, le_rfl, by norm_num, le_rfl, by norm_num⟩
     (by norm_num) (by norm_num)⟩

/-- C9: the generate-harmony path first overwrites the hex field with the
hex string printed from the current HSL triple, and parsing that string
always succeeds, so generateHarmonyPalette never takes its invalid branch
from this path: a palette is always returned, for every picker state and
every rule. -/
theorem C9_generate_harmony_total (st : PickerState) (rule : String) :
    (handleGenerateHarmony st rule).1 =
      toHexString (fromHsl st.hue st.saturation st.lightness) ∧
    ∃ l, (handleGenerateHarmony st rule).2 = some l := by
  refine ⟨rfl, ?_⟩
  unfold handleGenerateHarmony
  dsimp only
  exact gHP_some (tcParse_toHexString (hslToRgb_chanIn _ _ _)) rule

/-- C10: the parser accepts the CSS color name red, which is not a hex
string, mapping it to rgb(255, 0, 0); hence the harmony derivation on the
input red succeeds with a palette for every rule, and the hex input handler
adopts the parsed color's HSL triple. -/
theorem C10_named_color_red :
    tcParse "red" = some ⟨255, 0, 0⟩ ∧
    (∀ rule : String, ∃ l, generateHarmonyPalette "red" rule = some l) ∧
    (∀ st : PickerState, baseColorInputHandler st "red" =
      ⟨(toHsl (⟨255, 0, 0⟩ : Rgb)).1, (toHsl (⟨255, 0, 0⟩ : Rgb)).2.1,
       (toHsl (⟨255, 0, 0⟩ : Rgb)).2.2⟩) := by
  have hp : tcParse "red" = some ⟨255, 0, 0⟩ := by decide
  refine ⟨hp, fun rule => gHP_some hp rule, fun st => ?_⟩
  unfold baseColorInputHandler
  rw [hp]

end CPG
